import Mathlib

/-!
# CBOR instance-data parser of libyang: embedding and verification

Shallow embedding of `src/parser_cbor.c` and `src/cborr.c`.

* C pointers that may be NULL are `Option`s; a NULL sibling pointer (`*first_p`,
  `*tree`) is the empty list of siblings.
* C strings are `String`s, their length is the length in bytes
  (`String.utf8ByteSize`).
* Allocation never fails (`malloc`, `calloc`, `strdup`, `ly_set_add`), and
  `snprintf` never reports an encoding error.
* A call that dereferences a NULL pointer, or that does not terminate, yields
  no result: the functions that can do so return an `Option`, `none` meaning
  "no result".
* `assert`s are not executed (release build).
-/

namespace LibyangCbor

/-! ## Return codes and constants (libyang headers that the sources include) -/

/-- Modelled from the spec: the return codes `LY_ERR` of libyang's log.h, which
is not among the sources. The sources use LY_SUCCESS, LY_EMEM (memory),
LY_ESYS (system), LY_EINVAL (invalid argument), LY_EINT (internal),
LY_EVALID (syntax, reference and structural errors) and LY_ENOT (not
implemented). -/
inductive LY_ERR where
  | LY_SUCCESS
  | LY_EMEM
  | LY_ESYS
  | LY_EINVAL
  | LY_EEXIST
  | LY_ENOTFOUND
  | LY_EINT
  | LY_EVALID
  | LY_EDENIED
  | LY_EINCOMPLETE
  | LY_ERECOMPILE
  | LY_ENOT
  | LY_EOTHER
  | LY_EPLUGIN
  deriving DecidableEq, Repr

open LY_ERR

/-- Modelled from the spec: the schema node kinds (container, choice, leaf,
leaf-list, list, anyxml, anydata, case, rpc, action, notification) as the type
flags `LYS_*` of libyang's tree_schema.h, which is not among the sources. -/
def LYS_CONTAINER : Nat := 0x0001
def LYS_CHOICE : Nat := 0x0002
def LYS_LEAF : Nat := 0x0004
def LYS_LEAFLIST : Nat := 0x0008
def LYS_LIST : Nat := 0x0010
def LYS_ANYXML : Nat := 0x0020
def LYS_ANYDATA : Nat := 0x0060
def LYS_CASE : Nat := 0x0080
def LYS_RPC : Nat := 0x0100
def LYS_ACTION : Nat := 0x0200
def LYS_NOTIF : Nat := 0x0400

/-- Modelled from the spec: the inner node kinds, the mask `LYD_NODE_INNER` of
libyang's tree_data.h, which is not among the sources. -/
def LYD_NODE_INNER : Nat :=
  LYS_CONTAINER ||| LYS_LIST ||| LYS_RPC ||| LYS_ACTION ||| LYS_NOTIF

/-- Modelled from the spec: the strict option, the bit `LYD_PARSE_STRICT` of
libyang's parser_data.h, which is not among the sources. -/
def LYD_PARSE_STRICT : Nat := 0x020000

/-- Modelled from the spec: the option "parse multiple top-level siblings", the
bit `LYD_INTOPT_WITH_SIBLINGS` of libyang's parser_internal.h, which is not
among the sources. -/
def LYD_INTOPT_WITH_SIBLINGS : Nat := 0x20

/-- Simple values of CBOR as libcbor names them (`enum _cbor_ctrl`): false, true,
null, undefined. -/
def CBOR_CTRL_FALSE : Nat := 20
def CBOR_CTRL_TRUE : Nat := 21
def CBOR_CTRL_NULL : Nat := 22
def CBOR_CTRL_UNDEF : Nat := 23

/-! ## Data model -/

/-- A decoded CBOR item (`cbor_item_t` of the library libcbor), one constructor per
`cbor_typeof` value; `CBOR_TYPE_FLOAT_CTRL` is split by `cbor_float_ctrl_is_ctrl`,
`CBOR_TYPE_BYTESTRING` and `CBOR_TYPE_STRING` by the length form. A string of
definite length carries its bytes; a string of indefinite length (initial byte
5F or 7F, closed by the break byte FF) carries its chunks, each a string of
definite length. A float carries the text that `%g` prints for it. -/
inductive cbor_item where
  | uint (v : Nat)
  | negint (v : Nat)
  | bytestring (data : String)
  | bytestring_chunked (chunks : List String)
  | string (data : String)
  | string_chunked (chunks : List String)
  | array (items : List cbor_item)
  | map (pairs : List (cbor_item × cbor_item))
  | tag (value : Nat) (item : cbor_item)
  | ctrl (value : Nat)
  | float (printed : String)
  deriving Repr

/-- Modelled from the spec: the compiled schema node (`struct lysc_node` of
tree_schema.h, not among the sources) with its kind, its name and its children. -/
inductive lysc_node where
  | mk (nodetype : Nat) (name : String) (child : List lysc_node)
  deriving Repr

def lysc_node.nodetype : lysc_node → Nat
  | .mk t _ _ => t

def lysc_node.name : lysc_node → String
  | .mk _ n _ => n

def lysc_node.child : lysc_node → List lysc_node
  | .mk _ _ c => c

/-- Modelled from the spec: the data node (`struct lyd_node` of tree_data.h, not
among the sources) in its three variants, Terminal, Opaque (anydata, anyxml)
and Inner, each with its schema node. -/
inductive lyd_node where
  | term (schema : lysc_node) (value : String)
  | any (schema : lysc_node) (value : cbor_item)
  | inner (schema : lysc_node) (child : List lyd_node)
  deriving Repr

def lyd_node.schema : lyd_node → lysc_node
  | .term s _ => s
  | .any s _ => s
  | .inner s _ => s

/-- Children of a data node, `*lyd_node_child_p(node)`. -/
def lyd_node_child : lyd_node → List lyd_node
  | .inner _ c => c
  | _ => []

/-- Modelled from the spec: the compiled module (`struct lysc_module`, not among
the sources), `data` being its top-level nodes. -/
structure lysc_module where
  data : List lysc_node
  deriving Repr

/-- Modelled from the spec: the schema module (`struct lys_module`, not among the
sources); `compiled` is NULL for a module that is not implemented. -/
structure lys_module where
  compiled : Option lysc_module
  deriving Repr

/-- Modelled from the spec: the libyang context (`struct ly_ctx`, not among the
sources): the list of loaded modules, in their order. -/
structure ly_ctx where
  list : List lys_module
  deriving Repr

/-- Modelled from the spec: the extension instance (`struct lysc_ext_instance`,
not among the sources): the schema nodes rooted at it. -/
structure lysc_ext_instance where
  nodes : List lysc_node
  deriving Repr

/-- The two format variants, `enum lyd_cbor_format`. -/
inductive lyd_cbor_format where
  | LYD_CBOR_NAMED
  | LYD_CBOR_SID
  deriving DecidableEq, Repr

open lyd_cbor_format

/-- Tokenizer status, `enum LYCBOR_PARSER_STATUS` of cborr.h. -/
inductive LYCBOR_PARSER_STATUS where
  | LYCBOR_ERROR
  | LYCBOR_OBJECT
  | LYCBOR_OBJECT_NEXT
  | LYCBOR_OBJECT_CLOSED
  | LYCBOR_ARRAY
  | LYCBOR_ARRAY_NEXT
  | LYCBOR_ARRAY_CLOSED
  | LYCBOR_OBJECT_NAME
  | LYCBOR_NUMBER
  | LYCBOR_STRING
  | LYCBOR_TRUE
  | LYCBOR_FALSE
  | LYCBOR_NULL
  | LYCBOR_END
  deriving DecidableEq, Repr

open LYCBOR_PARSER_STATUS

/-- Modelled from the spec: the input handler (`struct ly_in` of in_internal.h,
not among the sources): the bytes from the current position on; the
terminating NUL byte follows the last element. -/
structure ly_in where
  current : List Nat
  deriving Repr

/-- Tokenizer context (`struct lycbor_ctx`). The status stack has its top at
the end of the list (`status.objs[status.count - 1]`). -/
structure lycbor_ctx where
  ctx : Option ly_ctx
  inp : ly_in
  status : List LYCBOR_PARSER_STATUS
  value : Option String
  value_len : Nat
  dynamic : Bool
  deriving Repr

/-- Parser context (`struct lyd_cbor_ctx`), with the member `cborctx` that
parser_cbor.c uses. The five sets, the path buffer, `op_node` and `tree` are
never written by the parser and are left out. -/
structure lyd_cbor_ctx where
  ext : Option lysc_ext_instance
  parse_opts : Nat
  val_opts : Nat
  int_opts : Nat
  format : lyd_cbor_format
  ctx : Option ly_ctx
  cborctx : Option lycbor_ctx
  deriving Repr

/-! ## Scalar conversion -/

/-- The cast `(int64_t)` of a 64-bit unsigned value. -/
def to_int64 (n : Nat) : Int :=
  if n % 2 ^ 64 < 2 ^ 63 then ((n % 2 ^ 64 : Nat) : Int) else ((n % 2 ^ 64 : Nat) : Int) - 2 ^ 64

/-- Embedding of `lydcbor_item_to_string`: the allocated string and its length,
or the error code (then `*str_val` is NULL and `*str_len` is 0). A byte or text
string is copied with the length that `cbor_bytestring_length` or
`cbor_string_length` returns, without a look at the length form; libcbor keeps
that length for a definite string only, for an indefinite one it is 0 and the
bytes are in the chunks, so that the copy is the empty string. -/
def lydcbor_item_to_string (item : cbor_item) : Except LY_ERR (String × Nat) :=
  match item with
  | .uint v =>
    let val : Nat := v % 2 ^ 64
    let s := toString val
    .ok (s, s.utf8ByteSize)
  | .negint v =>
    let val : Int := -1 - to_int64 v
    let s := toString val
    .ok (s, s.utf8ByteSize)
  | .bytestring data => .ok (data, data.utf8ByteSize)
  | .bytestring_chunked _ => .ok ("", 0)
  | .string data => .ok (data, data.utf8ByteSize)
  | .string_chunked _ => .ok ("", 0)
  | .ctrl value =>
    let r : LY_ERR × Option String × Nat :=
      if value = CBOR_CTRL_TRUE then (LY_SUCCESS, some "true", 4)
      else if value = CBOR_CTRL_FALSE then (LY_SUCCESS, some "false", 5)
      else if value = CBOR_CTRL_NULL then (LY_SUCCESS, some "", 0)
      else (LY_EVALID, none, 0)
    match r.2.1 with
    | none => .error LY_EMEM
    | some s => .ok (s, r.2.2)
  | .float printed => .ok (printed, printed.utf8ByteSize)
  | _ => .error LY_EVALID

/-- The test `cbor_isa_string` of libcbor, which looks at the type only: true for
a text string of either length form. -/
def cbor_isa_string : cbor_item → Bool
  | .string _ => true
  | .string_chunked _ => true
  | _ => false

def cbor_isa_map : cbor_item → Bool
  | .map _ => true
  | _ => false

def cbor_isa_array : cbor_item → Bool
  | .array _ => true
  | _ => false

/-- Embedding of `lydcbor_get_key_string`: the key name and its length, or the
error code (then `*key_str` is left as it was, NULL). -/
def lydcbor_get_key_string (lydctx : lyd_cbor_ctx) (key_item : cbor_item) :
    Except LY_ERR (String × Nat) :=
  match lydctx.format with
  | LYD_CBOR_NAMED =>
    if !cbor_isa_string key_item then .error LY_EVALID
    else lydcbor_item_to_string key_item
  | LYD_CBOR_SID => .error LY_ENOT

/-! ## Node construction and schema lookup -/

/-- Modelled from the spec: `lyd_create_term` (not among the sources), the
Terminal node constructor. The node owns the string it is handed; checking the
value against the type is deferred, so construction succeeds. -/
def lyd_create_term (snode : lysc_node) (value : String) (_value_len : Nat) :
    Except LY_ERR lyd_node :=
  .ok (.term snode value)

/-- Modelled from the spec: `lyd_create_any` (not among the sources), the
Opaque node constructor, which retains the raw item. -/
def lyd_create_any (snode : lysc_node) (value : cbor_item) : Except LY_ERR lyd_node :=
  .ok (.any snode value)

/-- Modelled from the spec: `lyd_create_inner` (not among the sources), the
Inner node constructor; the new node has no children. -/
def lyd_create_inner (snode : lysc_node) : Except LY_ERR lyd_node :=
  .ok (.inner snode [])

/-- Modelled from the spec: `lyd_insert_node` (not among the sources) with a
parent: the node becomes the last child of the parent (document order). -/
def lyd_insert_child (parent node : lyd_node) : lyd_node :=
  match parent with
  | .inner s c => .inner s (c ++ [node])
  | p => p

/-- Modelled from the spec: `lys_find_child` and `lysc_ext_find_node` (not
among the sources): the first node of the searched set with the given name.
The length handed over is always the length of `name`. -/
def lys_find_child (nodes : List lysc_node) (name : String) : Option lysc_node :=
  nodes.find? (fun n => n.name == name)

/-- Modelled from the spec: `lysc_node_child` (not among the sources), the first
child of a schema node. -/
def lysc_node_child (snode : lysc_node) : Option lysc_node :=
  snode.child.head?

/-- The loop over `lydctx->ctx->list` of `lydcbor_parse_container`; `snode` is
the value the local variable has before the loop. -/
def lydcbor_find_top_level (mods : List lys_module) (key_str : String)
    (snode : Option lysc_node) : Option lysc_node :=
  match mods with
  | [] => snode
  | mod :: rest =>
    match mod.compiled with
    | none => lydcbor_find_top_level rest key_str snode
    | some compiled =>
      if compiled.data.isEmpty then lydcbor_find_top_level rest key_str snode
      else
        match lys_find_child compiled.data key_str with
        | some found => some found
        | none => lydcbor_find_top_level rest key_str none

/-- The "Find schema node" step of `lydcbor_parse_container`: the new value of
the local `snode`, given the parent's schema (if there is a parent) and the
value `snode` had. `none`: `lydctx->ctx` is NULL and is dereferenced. -/
def lydcbor_find_snode (lydctx : lyd_cbor_ctx) (parent_schema : Option lysc_node)
    (key_str : String) (snode : Option lysc_node) : Option (Option lysc_node) :=
  match parent_schema with
  | some ps => some (lys_find_child ps.child key_str)
  | none =>
    match lydctx.ext with
    | some ext => some (lys_find_child ext.nodes key_str)
    | none =>
      match lydctx.ctx with
      | none => none
      | some ctx => some (lydcbor_find_top_level ctx.list key_str snode)

/-- Embedding of `lydcbor_parse_value`. -/
def lydcbor_parse_value (_lydctx : lyd_cbor_ctx) (snode : lysc_node) (item : cbor_item) :
    Except LY_ERR lyd_node :=
  match lydcbor_item_to_string item with
  | .error e => .error e
  | .ok (str_val, str_len) =>
    if snode.nodetype = LYS_LEAF ∨ snode.nodetype = LYS_LEAFLIST then
      lyd_create_term snode str_val str_len
    else if snode.nodetype = LYS_ANYDATA ∨ snode.nodetype = LYS_ANYXML then
      lyd_create_any snode item
    else .error LY_EVALID

/-! ## The tree builder -/

/-- The objects `lydcbor_parse_container` works on: the parent node (NULL at
the top level), the top-level siblings `*first_p` and the set `parsed`. -/
structure pc_state where
  parent : Option lyd_node
  first : List lyd_node
  parsed : List lyd_node
  deriving Repr

/-- The steps "Insert the node" and "Add to parsed set": `lyd_insert_node`
into the parent, or into `*first_p` without one, then `ly_set_add`. -/
def pc_insert (st : pc_state) (node : lyd_node) : pc_state :=
  match st.parent with
  | some p => ⟨some (lyd_insert_child p node), st.first, st.parsed ++ [node]⟩
  | none => ⟨none, st.first ++ [node], st.parsed ++ [node]⟩

/-- The array branch of `lydcbor_parse_container`, one element per step. -/
def lydcbor_parse_array (lydctx : lyd_cbor_ctx) (st : pc_state) :
    List cbor_item → LY_ERR × pc_state
  | [] => (LY_SUCCESS, st)
  | item :: rest =>
    match st.parent with
    | none => lydcbor_parse_array lydctx st rest
    | some parent =>
      match lysc_node_child parent.schema with
      | none => lydcbor_parse_array lydctx st rest
      | some snode =>
        if snode.nodetype &&& (LYS_LEAFLIST ||| LYS_LIST) ≠ 0 then
          match lydcbor_parse_value lydctx snode item with
          | .error e => (e, st)
          | .ok node =>
            lydcbor_parse_array lydctx
              ⟨some (lyd_insert_child parent node), st.first, st.parsed ++ [node]⟩ rest
        else lydcbor_parse_array lydctx st rest

mutual
/-- Embedding of `lydcbor_parse_container`: the return code and the objects
after the call; `none` when the call dereferences the NULL `lydctx->ctx`. -/
def lydcbor_parse_container (lydctx : lyd_cbor_ctx) (st : pc_state) :
    cbor_item → Option (LY_ERR × pc_state)
  | .map pairs => lydcbor_parse_map lydctx st none pairs
  | .array items => some (lydcbor_parse_array lydctx st items)
  | _ => some (LY_SUCCESS, st)
/-- The map branch of `lydcbor_parse_container`, one pair per step; `snode` is
the value the local variable has when the iteration starts. -/
def lydcbor_parse_map (lydctx : lyd_cbor_ctx) (st : pc_state) (snode : Option lysc_node) :
    List (cbor_item × cbor_item) → Option (LY_ERR × pc_state)
  | [] => some (LY_SUCCESS, st)
  | (key_item, value_item) :: rest =>
    match lydcbor_get_key_string lydctx key_item with
    | .error e => some (e, st)
    | .ok (key_str, _) =>
      match lydcbor_find_snode lydctx (st.parent.map lyd_node.schema) key_str snode with
      | none => none
      | some none =>
        if lydctx.parse_opts &&& LYD_PARSE_STRICT ≠ 0 then some (LY_EVALID, st)
        else lydcbor_parse_map lydctx st none rest
      | some (some sn) =>
        if sn.nodetype &&& (LYS_LEAF ||| LYS_LEAFLIST ||| LYS_ANYDATA ||| LYS_ANYXML) ≠ 0 then
          match lydcbor_parse_value lydctx sn value_item with
          | .error e => some (e, st)
          | .ok node => lydcbor_parse_map lydctx (pc_insert st node) (some sn) rest
        else if sn.nodetype &&& LYD_NODE_INNER ≠ 0 then
          match lyd_create_inner sn with
          | .error e => some (e, st)
          | .ok node =>
            if cbor_isa_map value_item || cbor_isa_array value_item then
              match lydcbor_parse_container lydctx
                  ⟨some node, lyd_node_child node, st.parsed⟩ value_item with
              | none => none
              | some (ret, sub) =>
                if ret ≠ LY_SUCCESS then some (ret, ⟨st.parent, st.first, sub.parsed⟩)
                else
                  lydcbor_parse_map lydctx
                    (pc_insert ⟨st.parent, st.first, sub.parsed⟩ (sub.parent.getD node))
                    (some sn) rest
            else lydcbor_parse_map lydctx (pc_insert st node) (some sn) rest
        else some (LY_EVALID, st)
end

/-! ## The tokenizer (cborr.c) -/

/-- Embedding of `lycbor_ctx_status`. -/
def lycbor_ctx_status (cborctx : lycbor_ctx) : LYCBOR_PARSER_STATUS :=
  match cborctx.status.getLast? with
  | none => LYCBOR_END
  | some s => s

/-- The routines that the sources call and that are defined neither in them
nor in libyang: the three tokenizer helpers that cborr.c uses, and the decoder
`cbor_load` of libcbor (the decoded item, or `none` when it reports an error).
The embedding takes them as parameters. -/
structure lycbor_routines where
  lycbor_next_value : lycbor_ctx → Bool → LY_ERR × lycbor_ctx
  lycbor_next_object_item : lycbor_ctx → LY_ERR × lycbor_ctx
  lycbor_next_array_item : lycbor_ctx → LY_ERR × lycbor_ctx
  cbor_load : List Nat → Option cbor_item

/-- Modelled from the spec: the macro `LYCBOR_STATUS_POP` (not among the
sources), which pops the status stack. -/
def LYCBOR_STATUS_POP (cborctx : lycbor_ctx) : lycbor_ctx :=
  ⟨cborctx.ctx, cborctx.inp, cborctx.status.dropLast, cborctx.value, cborctx.value_len,
    cborctx.dynamic⟩

/-- Modelled from the spec: `lycbor_ctx_set_value` (not among the sources),
which replaces the pending scalar value. -/
def lycbor_ctx_set_value (cborctx : lycbor_ctx) (value : Option String) (value_len : Nat)
    (dynamic : Bool) : lycbor_ctx :=
  ⟨cborctx.ctx, cborctx.inp, cborctx.status, value, value_len, dynamic⟩

/-- Embedding of `lycbor_next_object_name`, which is a stub. -/
def lycbor_next_object_name (cborctx : lycbor_ctx) : LY_ERR × lycbor_ctx :=
  (LY_SUCCESS, cborctx)

/-- The closing step of `lycbor_ctx_next` shared by the terminal values and,
after one more pop, by the closed containers. -/
def lycbor_ctx_next_close (R : lycbor_routines) (cborctx : lycbor_ctx) : LY_ERR × lycbor_ctx :=
  let c := LYCBOR_STATUS_POP (lycbor_ctx_set_value cborctx none 0 false)
  match lycbor_ctx_status c with
  | LYCBOR_OBJECT => R.lycbor_next_object_item c
  | LYCBOR_ARRAY => R.lycbor_next_array_item c
  | _ => (LY_SUCCESS, c)

/-- Embedding of `lycbor_ctx_next`. The argument `status` is the pointee of the
output parameter (`none` for a NULL pointer); the result holds the return code,
the context and the pointee after the call. The names `LYJSON_ARRAY_CLOSED`
and `LYJSON_STATUS_POP` of the closing case are read as their `LYCBOR`
namesakes. -/
def lycbor_ctx_next (R : lycbor_routines) (cborctx : lycbor_ctx)
    (status : Option LYCBOR_PARSER_STATUS) :
    LY_ERR × lycbor_ctx × Option LYCBOR_PARSER_STATUS :=
  let r : LY_ERR × lycbor_ctx :=
    match lycbor_ctx_status cborctx with
    | LYCBOR_OBJECT => lycbor_next_object_name cborctx
    | LYCBOR_ARRAY => R.lycbor_next_value cborctx true
    | LYCBOR_OBJECT_NEXT => lycbor_next_object_name (LYCBOR_STATUS_POP cborctx)
    | LYCBOR_ARRAY_NEXT => R.lycbor_next_value (LYCBOR_STATUS_POP cborctx) false
    | LYCBOR_OBJECT_NAME =>
      R.lycbor_next_value (LYCBOR_STATUS_POP (lycbor_ctx_set_value cborctx none 0 false)) false
    | LYCBOR_OBJECT_CLOSED => lycbor_ctx_next_close R (LYCBOR_STATUS_POP cborctx)
    | LYCBOR_ARRAY_CLOSED => lycbor_ctx_next_close R (LYCBOR_STATUS_POP cborctx)
    | LYCBOR_NUMBER => lycbor_ctx_next_close R cborctx
    | LYCBOR_STRING => lycbor_ctx_next_close R cborctx
    | LYCBOR_TRUE => lycbor_ctx_next_close R cborctx
    | LYCBOR_FALSE => lycbor_ctx_next_close R cborctx
    | LYCBOR_NULL => lycbor_ctx_next_close R cborctx
    | LYCBOR_END => R.lycbor_next_value cborctx false
    | LYCBOR_ERROR => (LY_EINT, cborctx)
  if r.1 = LY_SUCCESS ∧ status.isSome then (r.1, r.2, some (lycbor_ctx_status r.2))
  else (r.1, r.2, status)

/-- Embedding of `lycbor_ctx_new`: the new context, or the error code (then
`*cborctx_p` is not written). -/
def lycbor_ctx_new (R : lycbor_routines) (ctx : ly_ctx) (inp : ly_in) :
    Except LY_ERR lycbor_ctx :=
  let cborctx : lycbor_ctx := ⟨some ctx, inp, [], none, 0, false⟩
  if inp.current.head?.getD 0 = 0 then .error LY_EVALID
  else
    let r := lycbor_ctx_next R cborctx none
    if r.1 ≠ LY_SUCCESS then .error r.1 else .ok r.2.1

/-! ## Parser context and entry points (parser_cbor.c) -/

/-- Embedding of `lydcbor_ctx_new`. -/
def lydcbor_ctx_new (ctx : ly_ctx) (ext : Option lysc_ext_instance)
    (parse_opts val_opts : Nat) (format : lyd_cbor_format) : Except LY_ERR lyd_cbor_ctx :=
  .ok ⟨ext, parse_opts, val_opts, 0, format, some ctx, none⟩

/-- Embedding of `lydcbor_detect_format`. -/
def lydcbor_detect_format (_inp : ly_in) : LY_ERR × lyd_cbor_format :=
  (LY_SUCCESS, LYD_CBOR_NAMED)

/-- Embedding of `lyd_parse_cbor_init`. The argument `lydctx_p` is the pointee
of the output parameter before the call, the result holds it after the call.
The context is allocated by `calloc`: the members that the function does not
set are zero (`ctx` and `ext` NULL, `format` the first enumerator). -/
def lyd_parse_cbor_init (R : lycbor_routines) (ctx : ly_ctx) (inp : ly_in)
    (parse_opts val_opts : Nat) (lydctx_p : Option lyd_cbor_ctx) :
    LY_ERR × Option lyd_cbor_ctx :=
  match lycbor_ctx_new R ctx inp with
  | .error e => (e, lydctx_p)
  | .ok cborctx =>
    if lycbor_ctx_status cborctx ≠ LYCBOR_OBJECT then (LY_EVALID, none)
    else (LY_SUCCESS, some ⟨none, parse_opts, val_opts, 0, LYD_CBOR_NAMED, none, some cborctx⟩)

/-- Embedding of `lydcbor_subtree_r`: it reads the status of
`lydctx->cborctx` and returns; `none` when `lydctx->cborctx` is NULL. -/
def lydcbor_subtree_r (lydctx : lyd_cbor_ctx) : Option LY_ERR :=
  match lydctx.cborctx with
  | none => none
  | some _ => some LY_SUCCESS

/-- The C function `strlen`: the number of bytes before the first NUL. -/
def strlen (bytes : List Nat) : Nat :=
  (bytes.takeWhile (fun b => b != 0)).length

/-- What `lyd_parse_cbor` leaves: the return code, the tree objects and
`*lydctx_p`. -/
structure parse_result where
  ret : LY_ERR
  st : pc_state
  lydctx_p : Option lyd_cbor_ctx
  deriving Repr

/-- Embedding of `lyd_parse_cbor`; `st` holds `parent`, `*first_p` and
`parsed`. The call of `lyd_parse_cbor_init` stores its code in `rc` and jumps
to the only label, `cleanup`, which returns `ret`. `none`: no result (a NULL
dereference, or the subtree loop does not end). -/
def lyd_parse_cbor (R : lycbor_routines) (ctx : ly_ctx) (ext : Option lysc_ext_instance)
    (st : pc_state) (inp : ly_in) (parse_opts val_opts int_opts : Nat) :
    Option parse_result :=
  let cbor_size := strlen inp.current
  let fmt := lydcbor_detect_format inp
  if fmt.1 ≠ LY_SUCCESS then some ⟨fmt.1, st, none⟩
  else
    match lydcbor_ctx_new ctx ext parse_opts val_opts fmt.2 with
    | .error e => some ⟨e, st, none⟩
    | .ok lydctx0 =>
      let i := lyd_parse_cbor_init R ctx inp parse_opts val_opts (some lydctx0)
      if i.1 ≠ LY_SUCCESS then some ⟨LY_SUCCESS, st, i.2⟩
      else
        match i.2 with
        | none => none
        | some lydctx =>
          match lydcbor_subtree_r lydctx, lydctx.cborctx with
          | some _, some cborctx =>
            if int_opts &&& LYD_INTOPT_WITH_SIBLINGS ≠ 0 ∧
                lycbor_ctx_status cborctx = LYCBOR_OBJECT_NEXT then none
            else
              match R.cbor_load (cborctx.inp.current.take cbor_size) with
              | none => some ⟨LY_EVALID, st, none⟩
              | some cbor_data =>
                match lydcbor_parse_container lydctx st cbor_data with
                | none => none
                | some (ret, st') =>
                  if ret ≠ LY_SUCCESS then some ⟨ret, st', none⟩
                  else some ⟨ret, st', some lydctx⟩
          | _, _ => none

/-- Embedding of `lyd_parse_cbor_data`. `data` is the buffer (`none` for a
NULL pointer), `tree` the pointee of the output parameter (`none` for a NULL
pointer); the result holds the return code and `*tree` after the call. -/
def lyd_parse_cbor_data (R : lycbor_routines) (ctx : Option ly_ctx) (data : Option (List Nat))
    (data_len : Nat) (_format : lyd_cbor_format) (parse_opts val_opts : Nat)
    (tree : Option (List lyd_node)) : Option (LY_ERR × Option (List lyd_node)) :=
  match ctx, tree with
  | some c, some _ =>
    match data with
    | none => some (LY_SUCCESS, some [])
    | some d =>
      if data_len = 0 then some (LY_SUCCESS, some [])
      else
        match lyd_parse_cbor R c none ⟨none, [], []⟩ ⟨d⟩ parse_opts val_opts 0 with
        | none => none
        | some r => some (r.ret, some r.st.first)
  | _, _ => some (LY_EINVAL, tree)

/-- Modelled from the spec: the output handler (`struct ly_out` of out_internal.h,
not among the sources): the bytes written to it so far. -/
structure ly_out where
  written : List Nat
  deriving Repr

/-- Embedding of `lyd_print_cbor_data`: the return code and the output handler
after the call (`none` for a NULL handler). -/
def lyd_print_cbor_data (_root : Option lyd_node) (_format : lyd_cbor_format)
    (out : Option ly_out) (_options : Nat) : LY_ERR × Option ly_out :=
  (LY_ENOT, out)

/-! ## A concrete instance of the missing routines

Used to run the entry points on concrete documents. -/

/-- Head of a CBOR item (major type, argument, bytes after the head) for the
short encodings: argument in the initial byte or in one following byte. -/
def cbor_head : List Nat → Option (Nat × Nat × List Nat)
  | [] => none
  | b :: rest =>
    if b % 32 < 24 then some (b / 32, b % 32, rest)
    else if b % 32 = 24 then
      match rest with
      | a :: rest2 => some (b / 32, a, rest2)
      | [] => none
    else none

/-- The chunks of a string of indefinite length of the major type `major`, up to
the break byte FF: each chunk is a string of definite length of that type. -/
def cbor_decode_chunks : Nat → Nat → List Nat → Option (List String × List Nat)
  | 0, _, _ => none
  | fuel + 1, major, bytes =>
    if bytes.head? = some 0xFF then some ([], bytes.tail)
    else
      match cbor_head bytes with
      | none => none
      | some (m, arg, rest) =>
        if m ≠ major ∨ rest.length < arg then none
        else
          match cbor_decode_chunks fuel major (rest.drop arg) with
          | none => none
          | some (chunks, rest2) =>
            some (String.mk ((rest.take arg).map Char.ofNat) :: chunks, rest2)

mutual
/-- Decoder for CBOR items with short heads (maps and arrays of definite length,
strings of either length form), standing for `cbor_load` of libcbor: the first
item of the buffer and the bytes after it. -/
def cbor_decode_item : Nat → List Nat → Option (cbor_item × List Nat)
  | 0, _ => none
  | fuel + 1, bytes =>
    if bytes.head? = some 0x5F then
      (cbor_decode_chunks fuel 2 bytes.tail).map
        (fun r => (cbor_item.bytestring_chunked r.1, r.2))
    else if bytes.head? = some 0x7F then
      (cbor_decode_chunks fuel 3 bytes.tail).map
        (fun r => (cbor_item.string_chunked r.1, r.2))
    else
      match cbor_head bytes with
      | none => none
      | some (major, arg, rest) =>
        if major = 0 then some (.uint arg, rest)
        else if major = 1 then some (.negint arg, rest)
        else if major = 2 then
          if rest.length < arg then none
          else some (.bytestring (String.mk ((rest.take arg).map Char.ofNat)), rest.drop arg)
        else if major = 3 then
          if rest.length < arg then none
          else some (.string (String.mk ((rest.take arg).map Char.ofNat)), rest.drop arg)
        else if major = 4 then
          match cbor_decode_items fuel arg rest with
          | none => none
          | some (items, rest2) => some (.array items, rest2)
        else if major = 5 then
          match cbor_decode_pairs fuel arg rest with
          | none => none
          | some (pairs, rest2) => some (.map pairs, rest2)
        else if major = 6 then
          match cbor_decode_item fuel rest with
          | none => none
          | some (item, rest2) => some (.tag arg item, rest2)
        else if 20 ≤ arg ∧ arg ≤ 23 then some (.ctrl arg, rest)
        else none
/-- The elements of an array, `n` items. -/
def cbor_decode_items : Nat → Nat → List Nat → Option (List cbor_item × List Nat)
  | 0, _, _ => none
  | _ + 1, 0, bytes => some ([], bytes)
  | fuel + 1, n + 1, bytes =>
    match cbor_decode_item fuel bytes with
    | none => none
    | some (item, rest) =>
      match cbor_decode_items fuel n rest with
      | none => none
      | some (items, rest2) => some (item :: items, rest2)
/-- The pairs of a map, `n` pairs. -/
def cbor_decode_pairs : Nat → Nat → List Nat →
    Option (List (cbor_item × cbor_item) × List Nat)
  | 0, _, _ => none
  | _ + 1, 0, bytes => some ([], bytes)
  | fuel + 1, n + 1, bytes =>
    match cbor_decode_item fuel bytes with
    | none => none
    | some (key, rest) =>
      match cbor_decode_item fuel rest with
      | none => none
      | some (value, rest2) =>
        match cbor_decode_pairs fuel n rest2 with
        | none => none
        | some (pairs, rest3) => some ((key, value) :: pairs, rest3)
end

/-- The decoder run on a whole buffer; every item takes at least one byte, so
the fuel suffices. -/
def cbor_load_short (bytes : List Nat) : Option cbor_item :=
  (cbor_decode_item (2 * bytes.length + 2) bytes).map Prod.fst

/-- Modelled from the spec: `lycbor_next_value` (called by cborr.c, defined
nowhere): "read the value and push its scalar/container status", the status
being taken from the major type of the initial byte, which is consumed. -/
def lycbor_next_value_short (cborctx : lycbor_ctx) (_array_end : Bool) : LY_ERR × lycbor_ctx :=
  match cborctx.inp.current with
  | [] => (LY_EVALID, cborctx)
  | b :: rest =>
    let push (s : LYCBOR_PARSER_STATUS) : LY_ERR × lycbor_ctx :=
      (LY_SUCCESS, ⟨cborctx.ctx, ⟨rest⟩, cborctx.status ++ [s], cborctx.value,
        cborctx.value_len, cborctx.dynamic⟩)
    if b / 32 = 0 ∨ b / 32 = 1 then push LYCBOR_NUMBER
    else if b / 32 = 2 ∨ b / 32 = 3 then push LYCBOR_STRING
    else if b / 32 = 4 then push LYCBOR_ARRAY
    else if b / 32 = 5 then push LYCBOR_OBJECT
    else if b = 0xf5 then push LYCBOR_TRUE
    else if b = 0xf4 then push LYCBOR_FALSE
    else if b = 0xf6 then push LYCBOR_NULL
    else (LY_EVALID, cborctx)

/-- Instance of the missing routines: the decoder and the value reader above;
the two item readers announce a next item. -/
def short_routines : lycbor_routines where
  lycbor_next_value := lycbor_next_value_short
  lycbor_next_object_item := fun c =>
    (LY_SUCCESS, ⟨c.ctx, c.inp, c.status ++ [LYCBOR_OBJECT_NEXT], c.value, c.value_len,
      c.dynamic⟩)
  lycbor_next_array_item := fun c =>
    (LY_SUCCESS, ⟨c.ctx, c.inp, c.status ++ [LYCBOR_ARRAY_NEXT], c.value, c.value_len,
      c.dynamic⟩)
  cbor_load := cbor_load_short

/-! ## Notions used to state the properties -/

/-- Key decoding followed by the schema lookup: the first two steps of an
iteration of the map loop, for a fresh local `snode`. The result is the error
of the key decoder, or what the lookup of the decoded name yields. -/
def lydcbor_lookup_key (lydctx : lyd_cbor_ctx) (parent_schema : Option lysc_node)
    (key_item : cbor_item) : Except LY_ERR (Option (Option lysc_node)) :=
  match lydcbor_get_key_string lydctx key_item with
  | .error e => .error e
  | .ok (key_str, _) => .ok (lydcbor_find_snode lydctx parent_schema key_str none)

/-- The key of a pair is decoded and resolves to no schema node. -/
def lydcbor_key_unknown (lydctx : lyd_cbor_ctx) (parent_schema : Option lysc_node)
    (key_item : cbor_item) : Bool :=
  match lydcbor_lookup_key lydctx parent_schema key_item with
  | .ok (some none) => true
  | _ => false

/-- Some module of the list has compiled data. -/
def has_data : List lys_module → Bool
  | [] => false
  | mod :: rest =>
    match mod.compiled with
    | none => has_data rest
    | some compiled => if compiled.data.isEmpty then has_data rest else true

/-- The value left in the local `snode` by earlier iterations does not show in
any lookup. -/
def snode_fresh (lydctx : lyd_cbor_ctx) (ps : Option lysc_node) (snode : Option lysc_node) :
    Prop :=
  ∀ key_str,
    lydcbor_find_snode lydctx ps key_str snode = lydcbor_find_snode lydctx ps key_str none

/-- The scope of the schema lookup is defined: there is a parent, an extension
instance or a libyang context. -/
def scope_defined (lydctx : lyd_cbor_ctx) (ps : Option lysc_node) : Prop :=
  ps.isSome = true ∨ lydctx.ext.isSome = true ∨ lydctx.ctx.isSome = true

/-! ## A small schema and documents for concrete runs -/

/-- Schema leaf `inner`. -/
def schema_leaf_inner : lysc_node := .mk LYS_LEAF "inner" []

/-- Schema container `outer` with the leaf `inner`. -/
def schema_outer : lysc_node := .mk LYS_CONTAINER "outer" [schema_leaf_inner]

/-- Schema leaf `name`. -/
def schema_leaf_name : lysc_node := .mk LYS_LEAF "name" []

/-- Context with a module that is not implemented and a module with the
top-level nodes `outer` and `name`. -/
def schema_ctx : ly_ctx := ⟨[⟨none⟩, ⟨some ⟨[schema_outer, schema_leaf_name]⟩⟩]⟩

/-- Parser context over `schema_ctx` with the given parse options and format. -/
def schema_lydctx (parse_opts : Nat) (format : lyd_cbor_format) : lyd_cbor_ctx :=
  ⟨none, parse_opts, 0, 0, format, some schema_ctx, none⟩

/-- The state of a top-level call: no parent, no sibling, nothing parsed. -/
def pc_empty : pc_state := ⟨none, [], []⟩

/-- The document with the single pair "outer" : ("inner" : 7). -/
def doc_nested : cbor_item := .map [(.string "outer", .map [(.string "inner", .uint 7)])]

/-- Modelled from the spec: `lycbor_next_value` (called by cborr.c, defined
nowhere) in a second form: the status is taken from the major type of the
initial byte and pushed, the cursor stays where it is (the bytes are decoded
by `cbor_load` afterwards). -/
def lycbor_next_value_peek (cborctx : lycbor_ctx) (_array_end : Bool) : LY_ERR × lycbor_ctx :=
  match cborctx.inp.current with
  | [] => (LY_EVALID, cborctx)
  | b :: _ =>
    let push (s : LYCBOR_PARSER_STATUS) : LY_ERR × lycbor_ctx :=
      (LY_SUCCESS, ⟨cborctx.ctx, cborctx.inp, cborctx.status ++ [s], cborctx.value,
        cborctx.value_len, cborctx.dynamic⟩)
    if b / 32 = 0 ∨ b / 32 = 1 then push LYCBOR_NUMBER
    else if b / 32 = 2 ∨ b / 32 = 3 then push LYCBOR_STRING
    else if b / 32 = 4 then push LYCBOR_ARRAY
    else if b / 32 = 5 then push LYCBOR_OBJECT
    else if b = 0xf5 then push LYCBOR_TRUE
    else if b = 0xf4 then push LYCBOR_FALSE
    else if b = 0xf6 then push LYCBOR_NULL
    else (LY_EVALID, cborctx)

/-- Instance of the missing routines whose value reader leaves the cursor. -/
def peek_routines : lycbor_routines where
  lycbor_next_value := lycbor_next_value_peek
  lycbor_next_object_item := short_routines.lycbor_next_object_item
  lycbor_next_array_item := short_routines.lycbor_next_array_item
  cbor_load := cbor_load_short

mutual
/-- The nodes of a data subtree, each once: the nodes below the node in
document order, then the node itself. -/
def lyd_subtree_nodes : lyd_node → List lyd_node
  | .term s v => [.term s v]
  | .any s v => [.any s v]
  | .inner s c => lyd_forest_nodes c ++ [.inner s c]
/-- The nodes of a sequence of data subtrees, each once. -/
def lyd_forest_nodes : List lyd_node → List lyd_node
  | [] => []
  | n :: rest => lyd_subtree_nodes n ++ lyd_forest_nodes rest
end

/-- The parent handed to the tree builder is absent or an Inner node. -/
def pc_parent_inner (st : pc_state) : Prop :=
  st.parent = none ∨ ∃ s c, st.parent = some (.inner s c)

/-- The state `st1` is the state `st` after the insertion of the nodes `new`, in
this order, at the end of the child sequence of the parent (of the top-level
sequence without a parent), the parsed set having received every node of the
new subtrees once. -/
def pc_extends (st st1 : pc_state) (new : List lyd_node) : Prop :=
  st1.parsed = st.parsed ++ lyd_forest_nodes new ∧
  ((st.parent = none ∧ st1.parent = none ∧ st1.first = st.first ++ new) ∨
   (∃ s c, st.parent = some (.inner s c) ∧ st1.parent = some (.inner s (c ++ new)) ∧
     st1.first = st.first))

/-- Schema anydata `blob`. -/
def schema_any_blob : lysc_node := .mk LYS_ANYDATA "blob" []

/-- Schema leaf-list `tag`. -/
def schema_leaflist_tag : lysc_node := .mk LYS_LEAFLIST "tag" []

/-- Schema container `tags` whose first child is the leaf-list `tag`. -/
def schema_tags : lysc_node := .mk LYS_CONTAINER "tags" [schema_leaflist_tag]

/-- Schema list `entry` without keys, with the leaf `inner`. -/
def schema_list_entry : lysc_node := .mk LYS_LIST "entry" [schema_leaf_inner]

/-- Schema container `table` whose first child is the list `entry`. -/
def schema_table : lysc_node := .mk LYS_CONTAINER "table" [schema_list_entry]

/-- Context with one module whose top-level nodes are `tags`, `table` and `blob`. -/
def schema_ctx_lists : ly_ctx := ⟨[⟨some ⟨[schema_tags, schema_table, schema_any_blob]⟩⟩]⟩

/-- Parser context over `schema_ctx_lists`, Named format, no option set. -/
def schema_lydctx_lists : lyd_cbor_ctx :=
  ⟨none, 0, 0, 0, LYD_CBOR_NAMED, some schema_ctx_lists, none⟩

/-- The lookup of a top-level node as the spec words it: the modules are taken
in the order of the list, and the first module with compiled data that holds a
top-level node of the name gives the result ("first match wins"). -/
def top_level_first_match (mods : List lys_module) (name : String) : Option lysc_node :=
  mods.findSome? (fun mod =>
    match mod.compiled with
    | none => none
    | some compiled => lys_find_child compiled.data name)

/-- The terminal-value statuses: Number, String, True, False, Null. -/
def lycbor_status_terminal : LYCBOR_PARSER_STATUS → Bool
  | LYCBOR_NUMBER => true
  | LYCBOR_STRING => true
  | LYCBOR_TRUE => true
  | LYCBOR_FALSE => true
  | LYCBOR_NULL => true
  | _ => false

/-! ## Lemmas on the map loop -/

theorem find_top_level_no_data (mods : List lys_module) (k : String) (p : Option lysc_node)
    (h : has_data mods = false) : lydcbor_find_top_level mods k p = p := by
  induction mods with
  | nil => rfl
  | cons mod rest ih =>
    unfold has_data at h
    unfold lydcbor_find_top_level
    cases hc : mod.compiled with
    | none => simp only [hc] at h ⊢; exact ih h
    | some c =>
      simp only [hc] at h ⊢
      by_cases he : c.data.isEmpty = true
      · simp only [he, if_true] at h ⊢; exact ih h
      · simp [he] at h

theorem find_top_level_has_data (mods : List lys_module) (k : String) (p : Option lysc_node)
    (h : has_data mods = true) :
    lydcbor_find_top_level mods k p = lydcbor_find_top_level mods k none := by
  induction mods with
  | nil => simp [has_data] at h
  | cons mod rest ih =>
    unfold has_data at h
    unfold lydcbor_find_top_level
    cases hc : mod.compiled with
    | none => simp only [hc] at h ⊢; exact ih h
    | some c =>
      simp only [hc] at h ⊢
      by_cases he : c.data.isEmpty = true
      · simp only [he, if_true] at h ⊢; exact ih h
      · simp only [he, Bool.false_eq_true, if_false]

theorem snode_fresh_none (lydctx : lyd_cbor_ctx) (ps : Option lysc_node) :
    snode_fresh lydctx ps none := fun _ => rfl

theorem snode_fresh_of_find (lydctx : lyd_cbor_ctx) (ps : Option lysc_node) (k : String)
    (r : Option lysc_node) (h : lydcbor_find_snode lydctx ps k none = some r) :
    snode_fresh lydctx ps r := by
  intro k2
  unfold lydcbor_find_snode at h ⊢
  cases ps with
  | some s => rfl
  | none =>
    cases he : lydctx.ext with
    | some e => rfl
    | none =>
      cases hc : lydctx.ctx with
      | none => rfl
      | some c =>
        simp only [he, hc, Option.some.injEq] at h ⊢
        cases hd : has_data c.list with
        | true => exact find_top_level_has_data _ _ _ hd
        | false =>
          rw [find_top_level_no_data _ _ _ hd] at h
          rw [← h]

theorem lyd_insert_child_schema (p node : lyd_node) :
    (lyd_insert_child p node).schema = p.schema := by
  cases p <;> rfl

theorem pc_insert_parent_schema (st : pc_state) (node : lyd_node) :
    (pc_insert st node).parent.map lyd_node.schema = st.parent.map lyd_node.schema := by
  unfold pc_insert
  cases h : st.parent with
  | none => rfl
  | some p => simp [lyd_insert_child_schema]

theorem parse_map_filter (lydctx : lyd_cbor_ctx)
    (hstrict : lydctx.parse_opts &&& LYD_PARSE_STRICT = 0)
    (ps : Option lysc_node) (pairs : List (cbor_item × cbor_item)) :
    ∀ (st : pc_state) (s1 s2 : Option lysc_node), st.parent.map lyd_node.schema = ps →
      snode_fresh lydctx ps s1 → snode_fresh lydctx ps s2 →
      lydcbor_parse_map lydctx st s1 pairs =
        lydcbor_parse_map lydctx st s2
          (pairs.filter (fun p => !lydcbor_key_unknown lydctx ps p.1)) := by
  induction pairs with
  | nil => intro st s1 s2 _ _ _; rfl
  | cons p rest ih =>
    intro st s1 s2 hps h1 h2
    obtain ⟨key_item, value_item⟩ := p
    rw [List.filter_cons]
    cases hk : lydcbor_get_key_string lydctx key_item with
    | error e =>
      have hu : lydcbor_key_unknown lydctx ps key_item = false := by
        simp only [lydcbor_key_unknown, lydcbor_lookup_key, hk]
      simp only [hu, Bool.not_false, if_true]
      unfold lydcbor_parse_map
      simp only [hk]
    | ok kv =>
      obtain ⟨key_str, key_len⟩ := kv
      cases hf : lydcbor_find_snode lydctx ps key_str none with
      | none =>
        have hu : lydcbor_key_unknown lydctx ps key_item = false := by
          simp only [lydcbor_key_unknown, lydcbor_lookup_key, hk, hf]
        simp only [hu, Bool.not_false, if_true]
        unfold lydcbor_parse_map
        simp only [hk, hps, h1 key_str, h2 key_str, hf]
      | some r =>
        cases r with
        | none =>
          have hu : lydcbor_key_unknown lydctx ps key_item = true := by
            simp only [lydcbor_key_unknown, lydcbor_lookup_key, hk, hf]
          simp only [hu, Bool.not_true, Bool.false_eq_true, if_false]
          rw [lydcbor_parse_map]
          simp only [hk, hps, h1 key_str, hf, hstrict, ne_eq, not_true_eq_false, if_false]
          exact ih st none s2 hps (snode_fresh_none _ _) h2
        | some sn =>
          have hsn := snode_fresh_of_find lydctx ps key_str (some sn) hf
          have hu : lydcbor_key_unknown lydctx ps key_item = false := by
            simp only [lydcbor_key_unknown, lydcbor_lookup_key, hk, hf]
          simp only [hu, Bool.not_false, if_true]
          rw [lydcbor_parse_map, lydcbor_parse_map]
          simp only [hk, hps, h1 key_str, h2 key_str, hf]
          split
          · split
            · rfl
            · rename_i node _
              exact ih _ _ _ ((pc_insert_parent_schema st node).trans hps) hsn hsn
          · split
            · split
              · rfl
              · rename_i node _
                split
                · split
                  · rfl
                  · split
                    · rfl
                    · exact ih _ _ _ ((pc_insert_parent_schema _ _).trans hps) hsn hsn
                · exact ih _ _ _ ((pc_insert_parent_schema st node).trans hps) hsn hsn
            · rfl


theorem item_to_string_error_ne (item : cbor_item) (e : LY_ERR)
    (h : lydcbor_item_to_string item = .error e) : e ≠ LY_SUCCESS := by
  cases item with
  | ctrl value =>
    unfold lydcbor_item_to_string at h
    simp only at h
    split at h
    · cases h; decide
    · cases h
  | uint v => simp [lydcbor_item_to_string] at h
  | negint v => simp [lydcbor_item_to_string] at h
  | bytestring d => simp [lydcbor_item_to_string] at h
  | bytestring_chunked d => simp [lydcbor_item_to_string] at h
  | string d => simp [lydcbor_item_to_string] at h
  | string_chunked d => simp [lydcbor_item_to_string] at h
  | float d => simp [lydcbor_item_to_string] at h
  | array d => simp only [lydcbor_item_to_string] at h; cases h; decide
  | map d => simp only [lydcbor_item_to_string] at h; cases h; decide
  | tag t d => simp only [lydcbor_item_to_string] at h; cases h; decide

theorem get_key_string_error_ne (lydctx : lyd_cbor_ctx) (key_item : cbor_item) (e : LY_ERR)
    (h : lydcbor_get_key_string lydctx key_item = .error e) : e ≠ LY_SUCCESS := by
  unfold lydcbor_get_key_string at h
  split at h
  · split at h
    · cases h; decide
    · exact item_to_string_error_ne _ _ h
  · cases h; decide

theorem parse_value_error_ne (lydctx : lyd_cbor_ctx) (snode : lysc_node) (item : cbor_item)
    (e : LY_ERR) (h : lydcbor_parse_value lydctx snode item = .error e) : e ≠ LY_SUCCESS := by
  unfold lydcbor_parse_value at h
  split at h
  · rename_i e2 he
    cases h
    exact item_to_string_error_ne _ _ he
  · split at h
    · simp [lyd_create_term] at h
    · split at h
      · simp [lyd_create_any] at h
      · cases h; decide

theorem parse_map_append (lydctx : lyd_cbor_ctx) (ps : Option lysc_node)
    (pre : List (cbor_item × cbor_item)) :
    ∀ (st : pc_state) (s : Option lysc_node) (st1 : pc_state),
      st.parent.map lyd_node.schema = ps → snode_fresh lydctx ps s →
      lydcbor_parse_map lydctx st s pre = some (LY_SUCCESS, st1) →
      st1.parent.map lyd_node.schema = ps ∧
      ∃ s1, snode_fresh lydctx ps s1 ∧
        ∀ rest, lydcbor_parse_map lydctx st s (pre ++ rest) = lydcbor_parse_map lydctx st1 s1 rest := by
  induction pre with
  | nil =>
    intro st s st1 hps hs h
    simp only [lydcbor_parse_map, Option.some.injEq, Prod.mk.injEq, true_and] at h
    subst h
    exact ⟨hps, s, hs, fun _ => rfl⟩
  | cons p pre ih =>
    intro st s st1 hps hs h
    obtain ⟨key_item, value_item⟩ := p
    rw [lydcbor_parse_map] at h
    simp only [List.cons_append]
    cases hk : lydcbor_get_key_string lydctx key_item with
    | error e =>
      simp only [hk, Option.some.injEq, Prod.mk.injEq] at h
      exact absurd h.1 (get_key_string_error_ne _ _ _ hk)
    | ok kv =>
      obtain ⟨key_str, key_len⟩ := kv
      simp only [hk, hps, hs key_str] at h
      cases hf : lydcbor_find_snode lydctx ps key_str none with
      | none => simp only [hf] at h; cases h
      | some r =>
        cases r with
        | none =>
          simp only [hf] at h
          split at h
          · cases h
          · rename_i hstrict
            obtain ⟨h1, s1, hs1, h2⟩ := ih st none st1 hps (snode_fresh_none _ _) h
            refine ⟨h1, s1, hs1, fun rest => ?_⟩
            rw [lydcbor_parse_map]
            simp only [hk, hps, hs key_str, hf, hstrict, if_false]
            exact h2 rest
        | some sn =>
          have hsn := snode_fresh_of_find lydctx ps key_str (some sn) hf
          simp only [hf] at h
          split at h
          · rename_i hterm
            split at h
            · rename_i e he
              simp only [Option.some.injEq, Prod.mk.injEq] at h
              exact absurd h.1 (parse_value_error_ne _ _ _ _ he)
            · rename_i node hn
              obtain ⟨h1, s1, hs1, h2⟩ :=
                ih _ _ st1 ((pc_insert_parent_schema st node).trans hps) hsn h
              refine ⟨h1, s1, hs1, fun rest => ?_⟩
              rw [lydcbor_parse_map]
              simp only [hk, hps, hs key_str, hf, if_pos hterm, hn]
              exact h2 rest
          · rename_i hterm
            split at h
            · rename_i hinner
              split at h
              · rename_i e he
                simp [lyd_create_inner] at he
              · rename_i node hn
                split at h
                · rename_i hcont
                  split at h
                  · cases h
                  · rename_i ret sub hsub
                    split at h
                    · rename_i hret
                      simp only [Option.some.injEq, Prod.mk.injEq] at h
                      exact absurd h.1 hret
                    · rename_i hret
                      obtain ⟨h1, s1, hs1, h2⟩ :=
                        ih (pc_insert ⟨st.parent, st.first, sub.parsed⟩ (sub.parent.getD node)) _ st1
                          ((pc_insert_parent_schema _ _).trans hps) hsn h
                      refine ⟨h1, s1, hs1, fun rest => ?_⟩
                      rw [lydcbor_parse_map]
                      simp only [hk, hps, hs key_str, hf, if_neg hterm, if_pos hinner, hn,
                        if_pos hcont, hsub, if_neg hret]
                      exact h2 rest
                · rename_i hcont
                  obtain ⟨h1, s1, hs1, h2⟩ :=
                    ih _ _ st1 ((pc_insert_parent_schema st node).trans hps) hsn h
                  refine ⟨h1, s1, hs1, fun rest => ?_⟩
                  rw [lydcbor_parse_map]
                  simp only [hk, hps, hs key_str, hf, if_neg hterm, if_pos hinner, hn,
                    if_neg hcont]
                  exact h2 rest
            · simp only [Option.some.injEq, Prod.mk.injEq] at h
              exact absurd h.1 (by decide)


theorem find_snode_some (lydctx : lyd_cbor_ctx) (ps : Option lysc_node) (k : String)
    (s : Option lysc_node) (h : scope_defined lydctx ps) :
    ∃ r, lydcbor_find_snode lydctx ps k s = some r := by
  unfold lydcbor_find_snode
  cases ps with
  | some p => exact ⟨_, rfl⟩
  | none =>
    cases he : lydctx.ext with
    | some e => exact ⟨_, rfl⟩
    | none =>
      cases hc : lydctx.ctx with
      | some c => exact ⟨_, rfl⟩
      | none => simp [scope_defined, he, hc] at h

mutual
theorem parse_container_some (lydctx : lyd_cbor_ctx) :
    ∀ (item : cbor_item) (st : pc_state),
      scope_defined lydctx (st.parent.map lyd_node.schema) →
      ∃ r, lydcbor_parse_container lydctx st item = some r
  | .map pairs, st, h => by
    rw [lydcbor_parse_container]
    exact parse_map_some lydctx pairs st none h
  | .array items, st, _ => ⟨_, by rw [lydcbor_parse_container]⟩
  | .uint _, st, _ => by simp [lydcbor_parse_container]
  | .negint _, st, _ => by simp [lydcbor_parse_container]
  | .bytestring _, st, _ => by simp [lydcbor_parse_container]
  | .bytestring_chunked _, st, _ => by simp [lydcbor_parse_container]
  | .string _, st, _ => by simp [lydcbor_parse_container]
  | .string_chunked _, st, _ => by simp [lydcbor_parse_container]
  | .tag _ _, st, _ => by simp [lydcbor_parse_container]
  | .ctrl _, st, _ => by simp [lydcbor_parse_container]
  | .float _, st, _ => by simp [lydcbor_parse_container]
theorem parse_map_some (lydctx : lyd_cbor_ctx) :
    ∀ (pairs : List (cbor_item × cbor_item)) (st : pc_state) (s : Option lysc_node),
      scope_defined lydctx (st.parent.map lyd_node.schema) →
      ∃ r, lydcbor_parse_map lydctx st s pairs = some r
  | [], st, s, _ => ⟨_, by rw [lydcbor_parse_map]⟩
  | (key_item, value_item) :: rest, st, s, h => by
    rw [lydcbor_parse_map]
    split
    · exact ⟨_, rfl⟩
    · rename_i key_str _ _
      obtain ⟨r, hr⟩ := find_snode_some lydctx _ key_str s h
      rw [hr]
      cases r with
      | none =>
        simp only
        split
        · exact ⟨_, rfl⟩
        · exact parse_map_some lydctx rest st none h
      | some sn =>
        simp only
        split
        · split
          · exact ⟨_, rfl⟩
          · rename_i node _
            exact parse_map_some lydctx rest _ _ (by rw [pc_insert_parent_schema]; exact h)
        · split
          · split
            · exact ⟨_, rfl⟩
            · rename_i node _
              split
              · obtain ⟨r2, hr2⟩ := parse_container_some lydctx value_item
                  ⟨some node, lyd_node_child node, st.parsed⟩ (Or.inl rfl)
                rw [hr2]
                obtain ⟨ret, sub⟩ := r2
                simp only
                split
                · exact ⟨_, rfl⟩
                · exact parse_map_some lydctx rest _ _
                    (by rw [pc_insert_parent_schema]; exact h)
              · exact parse_map_some lydctx rest _ _ (by rw [pc_insert_parent_schema]; exact h)
          · exact ⟨_, rfl⟩
end

theorem parse_map_nonstring_key (lydctx : lyd_cbor_ctx)
    (hf : lydctx.format = LYD_CBOR_NAMED) (pairs : List (cbor_item × cbor_item)) :
    ∀ (st : pc_state) (s : Option lysc_node),
      (∃ p ∈ pairs, cbor_isa_string p.1 = false) →
      ∀ st1, lydcbor_parse_map lydctx st s pairs ≠ some (LY_SUCCESS, st1) := by
  induction pairs with
  | nil => intro st s ⟨p, hp, _⟩; simp at hp
  | cons p0 rest ih =>
    intro st s hex st1 hres
    obtain ⟨key_item, value_item⟩ := p0
    rw [lydcbor_parse_map] at hres
    cases hk : lydcbor_get_key_string lydctx key_item with
    | error e =>
      simp only [hk, Option.some.injEq, Prod.mk.injEq] at hres
      exact get_key_string_error_ne _ _ _ hk hres.1
    | ok kv =>
      have hstr : cbor_isa_string key_item = true := by
        by_contra hc
        simp [lydcbor_get_key_string, hf, hc] at hk
      have hrest : ∃ p ∈ rest, cbor_isa_string p.1 = false := by
        obtain ⟨p, hp, hpk⟩ := hex
        rcases List.mem_cons.mp hp with h | h
        · subst h; simp [hstr] at hpk
        · exact ⟨p, h, hpk⟩
      obtain ⟨key_str, key_len⟩ := kv
      simp only [hk] at hres
      split at hres
      · cases hres
      · split at hres
        · cases hres
        · exact ih _ _ hrest _ hres
      · split at hres
        · split at hres
          · rename_i e he
            simp only [Option.some.injEq, Prod.mk.injEq] at hres
            exact parse_value_error_ne _ _ _ _ he hres.1
          · exact ih _ _ hrest _ hres
        · split at hres
          · split at hres
            · rename_i e he
              simp [lyd_create_inner] at he
            · split at hres
              · split at hres
                · cases hres
                · split at hres
                  · rename_i hret
                    simp only [Option.some.injEq, Prod.mk.injEq] at hres
                    exact hret hres.1
                  · exact ih _ _ hrest _ hres
              · exact ih _ _ hrest _ hres
          · simp only [Option.some.injEq, Prod.mk.injEq] at hres
            exact absurd hres.1 (by decide)


theorem parse_map_parent_inner (lydctx : lyd_cbor_ctx) (pairs : List (cbor_item × cbor_item)) :
    ∀ (st : pc_state) (s : Option lysc_node) (r : LY_ERR × pc_state) (sn : lysc_node)
      (ch : List lyd_node),
      lydcbor_parse_map lydctx st s pairs = some r → st.parent = some (.inner sn ch) →
      ∃ new, r.2.parent = some (.inner sn (ch ++ new)) := by
  induction pairs with
  | nil =>
    intro st s r sn ch h hp
    simp only [lydcbor_parse_map, Option.some.injEq] at h
    subst h
    exact ⟨[], by simpa using hp⟩
  | cons p rest ih =>
    intro st s r sn ch h hp
    obtain ⟨key_item, value_item⟩ := p
    have hins : ∀ (parsed : List lyd_node) (node : lyd_node),
        (pc_insert ⟨st.parent, st.first, parsed⟩ node).parent = some (.inner sn (ch ++ [node])) := by
      intro parsed node
      simp [pc_insert, hp, lyd_insert_child]
    have hstep : ∀ (parsed : List lyd_node) (node : lyd_node) (s2 : Option lysc_node),
        lydcbor_parse_map lydctx (pc_insert ⟨st.parent, st.first, parsed⟩ node) s2 rest = some r →
        ∃ new, r.2.parent = some (.inner sn (ch ++ new)) := by
      intro parsed node s2 h2
      obtain ⟨new, hnew⟩ := ih _ _ _ _ _ h2 (hins parsed node)
      exact ⟨node :: new, by simpa using hnew⟩
    have hsame : ∀ (e : LY_ERR) (parsed : List lyd_node),
        some (e, (⟨st.parent, st.first, parsed⟩ : pc_state)) = some r →
        ∃ new, r.2.parent = some (.inner sn (ch ++ new)) := by
      intro e parsed h2
      simp only [Option.some.injEq] at h2
      subst h2
      exact ⟨[], by simpa using hp⟩
    rw [lydcbor_parse_map] at h
    split at h
    · exact hsame _ st.parsed h
    · split at h
      · cases h
      · split at h
        · exact hsame _ st.parsed h
        · exact ih _ _ _ _ _ h hp
      · split at h
        · split at h
          · exact hsame _ st.parsed h
          · exact hstep st.parsed _ _ h
        · split at h
          · split at h
            · exact hsame _ st.parsed h
            · split at h
              · split at h
                · cases h
                · split at h
                  · exact hsame _ _ h
                  · exact hstep _ _ _ h
              · exact hstep st.parsed _ _ h
          · exact hsame _ st.parsed h

theorem lookup_key_ok (lydctx : lyd_cbor_ctx) (ps : Option lysc_node) (key_item : cbor_item)
    (r : Option (Option lysc_node)) (h : lydcbor_lookup_key lydctx ps key_item = .ok r) :
    ∃ key_str key_len, lydcbor_get_key_string lydctx key_item = .ok (key_str, key_len) ∧
      lydcbor_find_snode lydctx ps key_str none = r := by
  unfold lydcbor_lookup_key at h
  split at h
  · cases h
  · rename_i key_str key_len hk
    simp only [Except.ok.injEq] at h
    exact ⟨key_str, key_len, hk, h⟩

theorem inner_nodetype_bits (sn : lysc_node)
    (h : sn.nodetype = LYS_CONTAINER ∨ sn.nodetype = LYS_LIST) :
    ¬ (sn.nodetype &&& (LYS_LEAF ||| LYS_LEAFLIST ||| LYS_ANYDATA ||| LYS_ANYXML) ≠ 0) ∧
    sn.nodetype &&& LYD_NODE_INNER ≠ 0 := by
  rcases h with h | h <;> rw [h] <;> decide


/-! ## Properties -/

/-- C1: with the strict option unset, `lydcbor_parse_container` returns on a
map the same result (return code, parent with its children, top-level
siblings, parsed set) as on the map without the pairs whose key resolves to no
schema node; a map of which every key resolves to no schema node succeeds and
leaves everything as it was. -/
theorem parse_container_skips_unknown (lydctx : lyd_cbor_ctx) (st : pc_state)
    (pairs : List (cbor_item × cbor_item))
    (hstrict : lydctx.parse_opts &&& LYD_PARSE_STRICT = 0) :
    lydcbor_parse_container lydctx st (.map pairs) =
      lydcbor_parse_container lydctx st (.map (pairs.filter (fun p =>
        !lydcbor_key_unknown lydctx (st.parent.map lyd_node.schema) p.1))) ∧
    ((∀ p ∈ pairs, lydcbor_key_unknown lydctx (st.parent.map lyd_node.schema) p.1 = true) →
      lydcbor_parse_container lydctx st (.map pairs) = some (LY_SUCCESS, st)) := by
  have h1 := parse_map_filter lydctx hstrict (st.parent.map lyd_node.schema) pairs st none none
    rfl (snode_fresh_none _ _) (snode_fresh_none _ _)
  refine ⟨by simpa only [lydcbor_parse_container] using h1, fun hall => ?_⟩
  have hnil : pairs.filter (fun p =>
      !lydcbor_key_unknown lydctx (st.parent.map lyd_node.schema) p.1) = [] := by
    rw [List.filter_eq_nil_iff]
    intro p hp
    simp [hall p hp]
  rw [lydcbor_parse_container, h1, hnil, lydcbor_parse_map]

/-- Witness of C1 on a document with the unknown keys "unknownField" and "zzz"
around the known key "outer". -/
theorem parse_container_skips_unknown_witness :
    lydcbor_parse_container (schema_lydctx 0 LYD_CBOR_NAMED) pc_empty
        (.map [(.string "unknownField", .uint 1),
          (.string "outer", .map [(.string "inner", .uint 7)]), (.string "zzz", .uint 2)]) =
      lydcbor_parse_container (schema_lydctx 0 LYD_CBOR_NAMED) pc_empty doc_nested ∧
    lydcbor_parse_container (schema_lydctx 0 LYD_CBOR_NAMED) pc_empty
        (.map [(.string "unknownField", .uint 1)]) = some (LY_SUCCESS, pc_empty) :=
  ⟨(parse_container_skips_unknown (schema_lydctx 0 LYD_CBOR_NAMED) pc_empty
      [(.string "unknownField", .uint 1),
        (.string "outer", .map [(.string "inner", .uint 7)]), (.string "zzz", .uint 2)]
      (by decide)).1,
   (parse_container_skips_unknown (schema_lydctx 0 LYD_CBOR_NAMED) pc_empty
      [(.string "unknownField", .uint 1)] (by decide)).2
      (by intro p hp; rw [List.mem_singleton] at hp; subst hp; rfl)⟩

/-- C3 (evaluation of the code): `lydcbor_item_to_string` succeeds on the four
primitive kinds. It yields the decimal representation of an unsigned integer
below 2^64, "true" (length 4), "false" (length 5), for null the empty string
(length 0) and the bytes of a text string of definite length unchanged; for a
text string of indefinite length it yields the empty string with length 0,
whatever the chunks hold. For a leaf or leaf-list `lydcbor_parse_value` hands
that string to the Terminal node constructor. -/
theorem item_to_string_primitives (lydctx : lyd_cbor_ctx) (snode : lysc_node) (v : Nat)
    (s : String) (chunks : List String) (hv : v < 2 ^ 64)
    (hs : snode.nodetype = LYS_LEAF ∨ snode.nodetype = LYS_LEAFLIST) :
    lydcbor_item_to_string (.uint v) = .ok (Nat.repr v, (Nat.repr v).utf8ByteSize) ∧
    lydcbor_item_to_string (.string s) = .ok (s, s.utf8ByteSize) ∧
    lydcbor_item_to_string (.ctrl CBOR_CTRL_TRUE) = .ok ("true", 4) ∧
    lydcbor_item_to_string (.ctrl CBOR_CTRL_FALSE) = .ok ("false", 5) ∧
    lydcbor_item_to_string (.ctrl CBOR_CTRL_NULL) = .ok ("", 0) ∧
    lydcbor_parse_value lydctx snode (.uint v) = lyd_create_term snode (Nat.repr v)
      (Nat.repr v).utf8ByteSize ∧
    lydcbor_parse_value lydctx snode (.string s) = lyd_create_term snode s s.utf8ByteSize ∧
    lydcbor_parse_value lydctx snode (.ctrl CBOR_CTRL_TRUE) = lyd_create_term snode "true" 4 ∧
    lydcbor_parse_value lydctx snode (.ctrl CBOR_CTRL_FALSE) = lyd_create_term snode "false" 5 ∧
    lydcbor_parse_value lydctx snode (.ctrl CBOR_CTRL_NULL) = lyd_create_term snode "" 0 ∧
    lydcbor_item_to_string (.string_chunked chunks) = .ok ("", 0) ∧
    lydcbor_parse_value lydctx snode (.string_chunked chunks) = lyd_create_term snode "" 0 := by
  have h1 : lydcbor_item_to_string (.uint v) = .ok (Nat.repr v, (Nat.repr v).utf8ByteSize) := by
    simp only [lydcbor_item_to_string, Nat.mod_eq_of_lt hv]
    rfl
  have h2 : lydcbor_item_to_string (.string s) = .ok (s, s.utf8ByteSize) := rfl
  have h3 : lydcbor_item_to_string (.ctrl CBOR_CTRL_TRUE) = .ok ("true", 4) := rfl
  have h4 : lydcbor_item_to_string (.ctrl CBOR_CTRL_FALSE) = .ok ("false", 5) := rfl
  have h5 : lydcbor_item_to_string (.ctrl CBOR_CTRL_NULL) = .ok ("", 0) := rfl
  have h6 : lydcbor_item_to_string (.string_chunked chunks) = .ok ("", 0) := rfl
  refine ⟨h1, h2, h3, h4, h5, ?_, ?_, ?_, ?_, ?_, h6, ?_⟩ <;>
    simp only [lydcbor_parse_value, h1, h2, h3, h4, h5, h6, hs, if_true]

/-- Witness of C3: the integer 42 and the text "hello", once of definite length
and once in the two chunks "he" and "llo" (bytes 7F 62 68 65 63 6C 6C 6F FF),
for the leaf `name`: the chunked text gives the Terminal node with the empty
string. -/
theorem item_to_string_primitives_witness :
    lydcbor_item_to_string (.uint 42) = .ok ("42", 2) ∧
    lydcbor_item_to_string (.string "hello") = .ok ("hello", 5) ∧
    lydcbor_parse_value (schema_lydctx 0 LYD_CBOR_NAMED) schema_leaf_name (.uint 42) =
      .ok (.term schema_leaf_name "42") ∧
    cbor_load_short [0x7F, 0x62, 0x68, 0x65, 0x63, 0x6C, 0x6C, 0x6F, 0xFF] =
      some (.string_chunked ["he", "llo"]) ∧
    lydcbor_item_to_string (.string_chunked ["he", "llo"]) = .ok ("", 0) ∧
    lydcbor_parse_value (schema_lydctx 0 LYD_CBOR_NAMED) schema_leaf_name
      (.string_chunked ["he", "llo"]) = .ok (.term schema_leaf_name "") :=
  ⟨(item_to_string_primitives (schema_lydctx 0 LYD_CBOR_NAMED) schema_leaf_name 42 "hello"
      ["he", "llo"] (by decide) (Or.inl rfl)).1,
   (item_to_string_primitives (schema_lydctx 0 LYD_CBOR_NAMED) schema_leaf_name 42 "hello"
      ["he", "llo"] (by decide) (Or.inl rfl)).2.1,
   (item_to_string_primitives (schema_lydctx 0 LYD_CBOR_NAMED) schema_leaf_name 42 "hello"
      ["he", "llo"] (by decide) (Or.inl rfl)).2.2.2.2.2.1,
   rfl,
   (item_to_string_primitives (schema_lydctx 0 LYD_CBOR_NAMED) schema_leaf_name 42 "hello"
      ["he", "llo"] (by decide) (Or.inl rfl)).2.2.2.2.2.2.2.2.2.2.1,
   (item_to_string_primitives (schema_lydctx 0 LYD_CBOR_NAMED) schema_leaf_name 42 "hello"
      ["he", "llo"] (by decide) (Or.inl rfl)).2.2.2.2.2.2.2.2.2.2.2⟩

/-- C4: when the pairs before a pair parse successfully, the key of the pair
resolves to a container or list schema node and its value is a map that parses
successfully with the new node as parent, `lydcbor_parse_container` adds
exactly one Inner node for the key, whose children are the nodes of that
nested parse in document order; the document with "outer" holding "inner" : 7
yields the Inner node `outer` with the one child `inner` of value "7". -/
theorem parse_container_nested_map (lydctx : lyd_cbor_ctx) (st st1 sub : pc_state)
    (pre inner_pairs : List (cbor_item × cbor_item)) (key_item : cbor_item) (sn : lysc_node)
    (hpre : lydcbor_parse_container lydctx st (.map pre) = some (LY_SUCCESS, st1))
    (hkey : lydcbor_lookup_key lydctx (st.parent.map lyd_node.schema) key_item
      = .ok (some (some sn)))
    (hkind : sn.nodetype = LYS_CONTAINER ∨ sn.nodetype = LYS_LIST)
    (hsub : lydcbor_parse_container lydctx ⟨some (.inner sn []), [], st1.parsed⟩
      (.map inner_pairs) = some (LY_SUCCESS, sub)) :
    (∃ children, sub.parent = some (.inner sn children) ∧
      lydcbor_parse_container lydctx st (.map (pre ++ [(key_item, .map inner_pairs)])) =
        some (LY_SUCCESS,
          pc_insert ⟨st1.parent, st1.first, sub.parsed⟩ (.inner sn children))) ∧
    lydcbor_parse_container (schema_lydctx 0 LYD_CBOR_NAMED) pc_empty doc_nested =
      some (LY_SUCCESS, ⟨none, [.inner schema_outer [.term schema_leaf_inner "7"]],
        [.term schema_leaf_inner "7", .inner schema_outer [.term schema_leaf_inner "7"]]⟩) := by
  refine ⟨?_, rfl⟩
  rw [lydcbor_parse_container] at hpre hsub
  obtain ⟨hps, s1, hs1, happ⟩ := parse_map_append lydctx _ pre st none st1 rfl
    (snode_fresh_none _ _) hpre
  obtain ⟨key_str, key_len, hk, hf⟩ := lookup_key_ok _ _ _ _ hkey
  obtain ⟨children, hch⟩ := parse_map_parent_inner lydctx inner_pairs _ _ _ sn [] hsub rfl
  simp only [List.nil_append] at hch
  refine ⟨children, hch, ?_⟩
  obtain ⟨hb1, hb2⟩ := inner_nodetype_bits sn hkind
  rw [lydcbor_parse_container, happ, lydcbor_parse_map]
  simp only [hk, hps, hs1 key_str, hf, if_neg hb1, if_pos hb2, lyd_create_inner, cbor_isa_map,
    Bool.true_or, if_true, lyd_node_child, lydcbor_parse_container, hsub, ne_eq,
    not_true_eq_false, if_false, hch, Option.getD_some, lydcbor_parse_map]

/-- Witness of C4: the pair "outer" after the pair "name". -/
theorem parse_container_nested_map_witness :
    ∃ children, (some (.inner schema_outer [.term schema_leaf_inner "7"]) : Option lyd_node) =
        some (.inner schema_outer children) ∧
      lydcbor_parse_container (schema_lydctx 0 LYD_CBOR_NAMED) pc_empty
        (.map ([(.string "name", .string "hello")] ++
          [(.string "outer", .map [(.string "inner", .uint 7)])])) =
        some (LY_SUCCESS,
          pc_insert ⟨none, [.term schema_leaf_name "hello"],
            [.term schema_leaf_name "hello", .term schema_leaf_inner "7"]⟩
            (.inner schema_outer children)) :=
  (parse_container_nested_map (schema_lydctx 0 LYD_CBOR_NAMED) pc_empty
    ⟨none, [.term schema_leaf_name "hello"], [.term schema_leaf_name "hello"]⟩
    ⟨some (.inner schema_outer [.term schema_leaf_inner "7"]), [],
      [.term schema_leaf_name "hello", .term schema_leaf_inner "7"]⟩
    [(.string "name", .string "hello")] [(.string "inner", .uint 7)] (.string "outer")
    schema_outer rfl rfl (Or.inl rfl) rfl).1

/-- C5 (evaluation of the code): when the tokenizer primes to a status other than
Object, `lyd_parse_cbor_init` returns LY_EVALID, and `lyd_parse_cbor`, which
keeps that code in `rc` and returns `ret`, returns LY_SUCCESS with nothing
parsed; so does `lyd_parse_cbor_data` on that input. -/
theorem lyd_parse_cbor_non_object (R : lycbor_routines) (ctx : ly_ctx)
    (ext : Option lysc_ext_instance) (st : pc_state) (inp : ly_in)
    (parse_opts val_opts int_opts data_len : Nat) (format : lyd_cbor_format)
    (tree : List lyd_node) (cborctx : lycbor_ctx) (lydctx_p : Option lyd_cbor_ctx)
    (hnew : lycbor_ctx_new R ctx inp = .ok cborctx)
    (hstatus : lycbor_ctx_status cborctx ≠ LYCBOR_OBJECT) :
    lyd_parse_cbor_init R ctx inp parse_opts val_opts lydctx_p = (LY_EVALID, none) ∧
    lyd_parse_cbor R ctx ext st inp parse_opts val_opts int_opts =
      some ⟨LY_SUCCESS, st, none⟩ ∧
    lyd_parse_cbor_data R (some ctx) (some inp.current) (data_len + 1) format parse_opts
      val_opts (some tree) = some (LY_SUCCESS, some []) := by
  have hinit : ∀ p, lyd_parse_cbor_init R ctx inp parse_opts val_opts p = (LY_EVALID, none) := by
    intro p
    simp only [lyd_parse_cbor_init, hnew, hstatus, ne_eq, not_false_eq_true, if_true]
  have hparse : ∀ e s io, lyd_parse_cbor R ctx e s inp parse_opts val_opts io =
      some ⟨LY_SUCCESS, s, none⟩ := by
    intro e s io
    simp [lyd_parse_cbor, lydcbor_detect_format, lydcbor_ctx_new, hinit]
  refine ⟨hinit _, hparse _ _ _, ?_⟩
  have h := hparse none ⟨none, [], []⟩ 0
  simp only [lyd_parse_cbor_data, Nat.succ_ne_zero, if_false]
  rw [show (⟨inp.current⟩ : ly_in) = inp from rfl, h]

/-- Witness of C5: the one-byte document 0x01 (the integer 1) and the document
0x81 0x01 (the array of the integer 1), read with the short instance of the
missing routines. -/
theorem lyd_parse_cbor_non_object_witness :
    lyd_parse_cbor short_routines schema_ctx none pc_empty ⟨[0x01]⟩ LYD_PARSE_STRICT 0 0 =
      some ⟨LY_SUCCESS, pc_empty, none⟩ ∧
    lyd_parse_cbor short_routines schema_ctx none pc_empty ⟨[0x81, 0x01]⟩ 0 0 0 =
      some ⟨LY_SUCCESS, pc_empty, none⟩ ∧
    lyd_parse_cbor_data short_routines (some schema_ctx) (some [0x01]) 1 LYD_CBOR_NAMED 0 0
      (some []) = some (LY_SUCCESS, some []) :=
  ⟨(lyd_parse_cbor_non_object short_routines schema_ctx none pc_empty ⟨[0x01]⟩
      LYD_PARSE_STRICT 0 0 0 LYD_CBOR_NAMED []
      ⟨some schema_ctx, ⟨[]⟩, [LYCBOR_NUMBER], none, 0, false⟩ none rfl (by decide)).2.1,
   (lyd_parse_cbor_non_object short_routines schema_ctx none pc_empty ⟨[0x81, 0x01]⟩
      0 0 0 0 LYD_CBOR_NAMED []
      ⟨some schema_ctx, ⟨[0x01]⟩, [LYCBOR_ARRAY], none, 0, false⟩ none rfl (by decide)).2.1,
   (lyd_parse_cbor_non_object short_routines schema_ctx none pc_empty ⟨[0x01]⟩
      0 0 0 0 LYD_CBOR_NAMED []
      ⟨some schema_ctx, ⟨[]⟩, [LYCBOR_NUMBER], none, 0, false⟩ none rfl (by decide)).2.2⟩

/-- C6 (evaluation of the code): on an array handed over without a parent, or
with a parent whose schema has no first child that is a leaf-list or a list,
`lydcbor_parse_container` returns LY_SUCCESS and leaves everything as it was:
the elements are ignored. -/
theorem parse_container_array_ignored (lydctx : lyd_cbor_ctx) (st : pc_state)
    (items : List cbor_item)
    (h : st.parent = none ∨ ∃ p, st.parent = some p ∧
      ∀ s, lysc_node_child p.schema = some s → s.nodetype &&& (LYS_LEAFLIST ||| LYS_LIST) = 0) :
    lydcbor_parse_container lydctx st (.array items) = some (LY_SUCCESS, st) := by
  rw [lydcbor_parse_container]
  congr 1
  induction items with
  | nil => rfl
  | cons item rest ih =>
    rw [lydcbor_parse_array]
    rcases h with h | ⟨p, hp, hs⟩
    · simp only [h]
      simpa only [h] using ih
    · simp only [hp]
      cases hc : lysc_node_child p.schema with
      | none => simpa only [hp, hc] using ih
      | some s =>
        simp only [hs s hc, ne_eq, not_true_eq_false, if_false]
        simpa only [hp, hc] using ih

/-- Witness of C6: the array of 1 and 2 at the top level, and under the
container `outer`, whose first child is a leaf; the latter is the nested call
for the document with the pair "outer" : [1, 2]. -/
theorem parse_container_array_ignored_witness :
    lydcbor_parse_container (schema_lydctx LYD_PARSE_STRICT LYD_CBOR_NAMED) pc_empty
      (.array [.uint 1, .uint 2]) = some (LY_SUCCESS, pc_empty) ∧
    lydcbor_parse_container (schema_lydctx 0 LYD_CBOR_NAMED)
      ⟨some (.inner schema_outer []), [], []⟩ (.array [.uint 1, .uint 2]) =
      some (LY_SUCCESS, ⟨some (.inner schema_outer []), [], []⟩) ∧
    lydcbor_parse_container (schema_lydctx LYD_PARSE_STRICT LYD_CBOR_NAMED) pc_empty
      (.map [(.string "outer", .array [.uint 1, .uint 2])]) =
      some (LY_SUCCESS, ⟨none, [.inner schema_outer []], [.inner schema_outer []]⟩) :=
  ⟨parse_container_array_ignored (schema_lydctx LYD_PARSE_STRICT LYD_CBOR_NAMED) pc_empty
      [.uint 1, .uint 2] (Or.inl rfl),
   parse_container_array_ignored (schema_lydctx 0 LYD_CBOR_NAMED)
      ⟨some (.inner schema_outer []), [], []⟩ [.uint 1, .uint 2]
      (Or.inr ⟨.inner schema_outer [], rfl, by
        intro s hs
        have : s = schema_leaf_inner := by
          simpa [lysc_node_child, lyd_node.schema, schema_outer, lysc_node.child] using hs.symm
        subst this
        decide⟩),
   rfl⟩

/-- C7 (evaluation of the code): for a pair whose key resolves to a container or
list schema node and whose value is neither a map nor an array,
`lydcbor_parse_container` returns LY_SUCCESS and inserts an Inner node
without children for the key. -/
theorem parse_container_inner_scalar (lydctx : lyd_cbor_ctx) (st : pc_state)
    (key_item value_item : cbor_item) (sn : lysc_node)
    (hkey : lydcbor_lookup_key lydctx (st.parent.map lyd_node.schema) key_item
      = .ok (some (some sn)))
    (hkind : sn.nodetype = LYS_CONTAINER ∨ sn.nodetype = LYS_LIST)
    (hmap : cbor_isa_map value_item = false) (harr : cbor_isa_array value_item = false) :
    lydcbor_parse_container lydctx st (.map [(key_item, value_item)]) =
      some (LY_SUCCESS, pc_insert st (.inner sn [])) := by
  obtain ⟨key_str, key_len, hk, hf⟩ := lookup_key_ok _ _ _ _ hkey
  obtain ⟨hb1, hb2⟩ := inner_nodetype_bits sn hkind
  rw [lydcbor_parse_container, lydcbor_parse_map]
  simp only [hk, hf, if_neg hb1, if_pos hb2, lyd_create_inner, hmap, harr, Bool.or_self,
    Bool.false_eq_true, if_false, lydcbor_parse_map]

/-- Witness of C7: the document with the pair "outer" : 7. -/
theorem parse_container_inner_scalar_witness :
    lydcbor_parse_container (schema_lydctx LYD_PARSE_STRICT LYD_CBOR_NAMED) pc_empty
      (.map [(.string "outer", .uint 7)]) =
      some (LY_SUCCESS, ⟨none, [.inner schema_outer []], [.inner schema_outer []]⟩) :=
  parse_container_inner_scalar (schema_lydctx LYD_PARSE_STRICT LYD_CBOR_NAMED) pc_empty
    (.string "outer") (.uint 7) schema_outer rfl (Or.inl rfl) rfl rfl

/-- C8: `lyd_parse_cbor_data` called with a context and a tree pointer returns
LY_SUCCESS and sets `*tree` to NULL when the data pointer is NULL and when
`data_len` is 0, for every format and every option value. -/
theorem lyd_parse_cbor_data_empty (R : lycbor_routines) (ctx : ly_ctx)
    (data : Option (List Nat)) (data_len : Nat) (format : lyd_cbor_format)
    (parse_opts val_opts : Nat) (tree : List lyd_node) :
    lyd_parse_cbor_data R (some ctx) none data_len format parse_opts val_opts (some tree)
      = some (LY_SUCCESS, some []) ∧
    lyd_parse_cbor_data R (some ctx) data 0 format parse_opts val_opts (some tree)
      = some (LY_SUCCESS, some []) := by
  constructor
  · rfl
  · cases data <;> rfl

/-- C9 (evaluation of the code): under the Named format `lydcbor_get_key_string`
returns the bytes and the length of every text-string key of definite length
and fails with LY_EVALID on every key item that is not a text string; a map
with a key that is not a text string never parses successfully, whatever the
options, and with a defined lookup scope the call returns an error code. On a
text-string key of indefinite length it succeeds with the empty key of length
0, whatever the chunks hold, and the pair is looked up under the empty name. -/
theorem get_key_string_named (lydctx : lyd_cbor_ctx)
    (hf : lydctx.format = LYD_CBOR_NAMED) :
    (∀ s, lydcbor_get_key_string lydctx (.string s) = .ok (s, s.utf8ByteSize)) ∧
    (∀ key_item, cbor_isa_string key_item = false →
      lydcbor_get_key_string lydctx key_item = .error LY_EVALID) ∧
    (∀ st pairs, (∃ p ∈ pairs, cbor_isa_string p.1 = false) →
      (∀ st1, lydcbor_parse_container lydctx st (.map pairs) ≠ some (LY_SUCCESS, st1)) ∧
      (scope_defined lydctx (st.parent.map lyd_node.schema) →
        ∃ e st1, lydcbor_parse_container lydctx st (.map pairs) = some (e, st1) ∧
          e ≠ LY_SUCCESS)) ∧
    (∀ chunks, lydcbor_get_key_string lydctx (.string_chunked chunks) = .ok ("", 0)) ∧
    (∀ parent_schema chunks,
      lydcbor_lookup_key lydctx parent_schema (.string_chunked chunks) =
        .ok (lydcbor_find_snode lydctx parent_schema "" none)) := by
  have hc : ∀ chunks, lydcbor_get_key_string lydctx (.string_chunked chunks) = .ok ("", 0) := by
    intro chunks
    simp [lydcbor_get_key_string, hf, cbor_isa_string, lydcbor_item_to_string]
  refine ⟨fun s => ?_, fun key_item hk => ?_, fun st pairs hex => ?_, hc,
    fun parent_schema chunks => ?_⟩
  · simp [lydcbor_get_key_string, hf, cbor_isa_string, lydcbor_item_to_string]
  · simp [lydcbor_get_key_string, hf, hk]
  · have hne : ∀ st1, lydcbor_parse_container lydctx st (.map pairs) ≠ some (LY_SUCCESS, st1) := by
      intro st1
      rw [lydcbor_parse_container]
      exact parse_map_nonstring_key lydctx hf pairs st none hex st1
    refine ⟨hne, fun hscope => ?_⟩
    obtain ⟨⟨e, st1⟩, hr⟩ := parse_container_some lydctx (.map pairs) st hscope
    refine ⟨e, st1, hr, fun he => ?_⟩
    subst he
    exact hne st1 hr
  · simp only [lydcbor_lookup_key, hc]

/-- Witness of C9: the keys "name" and 5, the document with the pairs
"name" : "hello" and 5 : 1, with and without the strict option, and the key
"name" in the two chunks "na" and "me" (bytes 7F 62 6E 61 62 6D 65 FF): the
pair with the chunked key is skipped as unknown, where the key of definite
length gives the leaf. -/
theorem get_key_string_named_witness :
    lydcbor_get_key_string (schema_lydctx 0 LYD_CBOR_NAMED) (.string "name") = .ok ("name", 4) ∧
    lydcbor_get_key_string (schema_lydctx 0 LYD_CBOR_NAMED) (.uint 5) = .error LY_EVALID ∧
    (∃ e st1, lydcbor_parse_container (schema_lydctx 0 LYD_CBOR_NAMED) pc_empty
      (.map [(.string "name", .string "hello"), (.uint 5, .uint 1)]) = some (e, st1) ∧
      e ≠ LY_SUCCESS) ∧
    (∃ e st1, lydcbor_parse_container (schema_lydctx LYD_PARSE_STRICT LYD_CBOR_NAMED) pc_empty
      (.map [(.string "name", .string "hello"), (.uint 5, .uint 1)]) = some (e, st1) ∧
      e ≠ LY_SUCCESS) ∧
    cbor_load_short [0x7F, 0x62, 0x6E, 0x61, 0x62, 0x6D, 0x65, 0xFF] =
      some (.string_chunked ["na", "me"]) ∧
    lydcbor_get_key_string (schema_lydctx 0 LYD_CBOR_NAMED) (.string_chunked ["na", "me"]) =
      .ok ("", 0) ∧
    lydcbor_parse_container (schema_lydctx 0 LYD_CBOR_NAMED) pc_empty
      (.map [(.string_chunked ["na", "me"], .string "hello")]) = some (LY_SUCCESS, pc_empty) ∧
    lydcbor_parse_container (schema_lydctx 0 LYD_CBOR_NAMED) pc_empty
      (.map [(.string "name", .string "hello")]) =
        some (LY_SUCCESS, ⟨none, [.term schema_leaf_name "hello"],
          [.term schema_leaf_name "hello"]⟩) ∧
    lydcbor_parse_container (schema_lydctx LYD_PARSE_STRICT LYD_CBOR_NAMED) pc_empty
      (.map [(.string_chunked ["na", "me"], .string "hello")]) = some (LY_EVALID, pc_empty) :=
  ⟨(get_key_string_named (schema_lydctx 0 LYD_CBOR_NAMED) rfl).1 "name",
   (get_key_string_named (schema_lydctx 0 LYD_CBOR_NAMED) rfl).2.1 (.uint 5) rfl,
   ((get_key_string_named (schema_lydctx 0 LYD_CBOR_NAMED) rfl).2.2.1 pc_empty
      [(.string "name", .string "hello"), (.uint 5, .uint 1)]
      ⟨(.uint 5, .uint 1), by simp, rfl⟩).2 (Or.inr (Or.inr rfl)),
   ((get_key_string_named (schema_lydctx LYD_PARSE_STRICT LYD_CBOR_NAMED) rfl).2.2.1 pc_empty
      [(.string "name", .string "hello"), (.uint 5, .uint 1)]
      ⟨(.uint 5, .uint 1), by simp, rfl⟩).2 (Or.inr (Or.inr rfl)),
   rfl,
   (get_key_string_named (schema_lydctx 0 LYD_CBOR_NAMED) rfl).2.2.2.1 ["na", "me"],
   rfl, rfl, rfl⟩

/-- C10: under the SID format `lydcbor_get_key_string` returns LY_ENOT for every
key item and yields no key; `lydcbor_parse_container` fails with LY_ENOT on
every non-empty map, leaving everything as it was; LY_ENOT differs from
LY_EVALID. -/
theorem get_key_string_sid (lydctx : lyd_cbor_ctx) (hf : lydctx.format = LYD_CBOR_SID) :
    (∀ key_item, lydcbor_get_key_string lydctx key_item = .error LY_ENOT) ∧
    (∀ st pairs, pairs ≠ [] →
      lydcbor_parse_container lydctx st (.map pairs) = some (LY_ENOT, st)) ∧
    LY_ENOT ≠ LY_EVALID := by
  have h : ∀ key_item, lydcbor_get_key_string lydctx key_item = .error LY_ENOT := by
    intro k
    simp [lydcbor_get_key_string, hf]
  refine ⟨h, ?_, by decide⟩
  intro st pairs hp
  cases pairs with
  | nil => exact absurd rfl hp
  | cons p rest =>
    obtain ⟨k, v⟩ := p
    simp [lydcbor_parse_container, lydcbor_parse_map, h]

/-- Witness of C10: the key "outer" and the nested document under the SID format. -/
theorem get_key_string_sid_witness :
    lydcbor_get_key_string (schema_lydctx 0 LYD_CBOR_SID) (.string "outer") = .error LY_ENOT ∧
    lydcbor_parse_container (schema_lydctx 0 LYD_CBOR_SID) pc_empty doc_nested =
      some (LY_ENOT, pc_empty) :=
  ⟨(get_key_string_sid (schema_lydctx 0 LYD_CBOR_SID) rfl).1 (.string "outer"),
   (get_key_string_sid (schema_lydctx 0 LYD_CBOR_SID) rfl).2.1 pc_empty
      [(.string "outer", .map [(.string "inner", .uint 7)])] (by simp)⟩

/-! ## Lemmas on the entry points -/

theorem parse_array_no_parent (lydctx : lyd_cbor_ctx) (st : pc_state) (items : List cbor_item)
    (h : st.parent = none) : lydcbor_parse_array lydctx st items = (LY_SUCCESS, st) := by
  induction items with
  | nil => rfl
  | cons item rest ih =>
    rw [lydcbor_parse_array]
    simp only [h]
    simpa only [h] using ih

/-- With the context that `lyd_parse_cbor_init` allocates (no extension, NULL
`ctx`, Named format) and without a parent, a call that returns has inserted
nothing, and its code is LY_SUCCESS or LY_EVALID. -/
theorem parse_container_calloc (lydctx : lyd_cbor_ctx) (st : pc_state) (item : cbor_item)
    (r : LY_ERR × pc_state) (hext : lydctx.ext = none) (hctx : lydctx.ctx = none)
    (hfmt : lydctx.format = LYD_CBOR_NAMED) (hp : st.parent = none)
    (h : lydcbor_parse_container lydctx st item = some r) :
    r.2 = st ∧ (r.1 = LY_SUCCESS ∨ r.1 = LY_EVALID) := by
  cases item with
  | map pairs =>
    rw [lydcbor_parse_container] at h
    cases pairs with
    | nil =>
      simp only [lydcbor_parse_map, Option.some.injEq] at h
      subst h
      exact ⟨rfl, Or.inl rfl⟩
    | cons p rest =>
      obtain ⟨key_item, value_item⟩ := p
      rw [lydcbor_parse_map] at h
      cases hk : lydcbor_get_key_string lydctx key_item with
      | error e =>
        simp only [hk, Option.some.injEq] at h
        subst h
        refine ⟨rfl, Or.inr ?_⟩
        simp only [lydcbor_get_key_string, hfmt] at hk
        split at hk
        · cases hk; rfl
        · cases key_item <;> simp [cbor_isa_string, lydcbor_item_to_string] at *
      | ok kv =>
        obtain ⟨key_str, key_len⟩ := kv
        simp only [hk, hp, Option.map_none', lydcbor_find_snode, hext, hctx] at h
        cases h
  | array items =>
    rw [lydcbor_parse_container, parse_array_no_parent lydctx st items hp] at h
    simp only [Option.some.injEq] at h
    subst h
    exact ⟨rfl, Or.inl rfl⟩
  | uint _ => simp [lydcbor_parse_container] at h; subst h; exact ⟨rfl, Or.inl rfl⟩
  | negint _ => simp [lydcbor_parse_container] at h; subst h; exact ⟨rfl, Or.inl rfl⟩
  | bytestring _ => simp [lydcbor_parse_container] at h; subst h; exact ⟨rfl, Or.inl rfl⟩
  | bytestring_chunked _ =>
    simp [lydcbor_parse_container] at h; subst h; exact ⟨rfl, Or.inl rfl⟩
  | string _ => simp [lydcbor_parse_container] at h; subst h; exact ⟨rfl, Or.inl rfl⟩
  | string_chunked _ => simp [lydcbor_parse_container] at h; subst h; exact ⟨rfl, Or.inl rfl⟩
  | tag _ _ => simp [lydcbor_parse_container] at h; subst h; exact ⟨rfl, Or.inl rfl⟩
  | ctrl _ => simp [lydcbor_parse_container] at h; subst h; exact ⟨rfl, Or.inl rfl⟩
  | float _ => simp [lydcbor_parse_container] at h; subst h; exact ⟨rfl, Or.inl rfl⟩

theorem parse_cbor_init_context (R : lycbor_routines) (ctx : ly_ctx) (inp : ly_in)
    (parse_opts val_opts : Nat) (p : Option lyd_cbor_ctx) (lydctx : lyd_cbor_ctx)
    (h : lyd_parse_cbor_init R ctx inp parse_opts val_opts p = (LY_SUCCESS, some lydctx)) :
    lydctx.ext = none ∧ lydctx.ctx = none ∧ lydctx.format = LYD_CBOR_NAMED := by
  unfold lyd_parse_cbor_init at h
  split at h
  · rename_i e he
    simp only [Prod.mk.injEq] at h
    have := h.1
    subst this
    unfold lycbor_ctx_new at he
    split at he
    · cases he
    · by_cases hne : (lycbor_ctx_next R ⟨some ctx, inp, [], none, 0, false⟩ none).1 = LY_SUCCESS
      · simp [hne] at he
      · simp only [ne_eq, hne, not_false_eq_true, if_true, Except.error.injEq] at he
  · split at h
    · simp at h
    · simp only [Prod.mk.injEq, Option.some.injEq, true_and] at h
      subst h
      exact ⟨rfl, rfl, rfl⟩

/-- Without a parent, a call of `lyd_parse_cbor` that returns has inserted
nothing, and its code is LY_SUCCESS or LY_EVALID. -/
theorem parse_cbor_top (R : lycbor_routines) (ctx : ly_ctx) (ext : Option lysc_ext_instance)
    (st : pc_state) (inp : ly_in) (parse_opts val_opts int_opts : Nat) (r : parse_result)
    (hp : st.parent = none)
    (h : lyd_parse_cbor R ctx ext st inp parse_opts val_opts int_opts = some r) :
    r.st = st ∧ (r.ret = LY_SUCCESS ∨ r.ret = LY_EVALID) := by
  unfold lyd_parse_cbor at h
  simp only [lydcbor_detect_format, ne_eq, not_true_eq_false, if_false, lydcbor_ctx_new] at h
  split at h
  · simp only [Option.some.injEq] at h
    subst h
    exact ⟨rfl, Or.inl rfl⟩
  · rename_i hinit
    simp only [ne_eq, Decidable.not_not] at hinit
    split at h
    · cases h
    · rename_i lydctx hl
      have hi : lyd_parse_cbor_init R ctx inp parse_opts val_opts
          (some ⟨ext, parse_opts, val_opts, 0, LYD_CBOR_NAMED, some ctx, none⟩)
          = (LY_SUCCESS, some lydctx) := by
        rw [← hinit, ← hl]
      obtain ⟨hext, hctx, hfmt⟩ := parse_cbor_init_context _ _ _ _ _ _ _ hi
      split at h
      · split at h
        · cases h
        · split at h
          · simp only [Option.some.injEq] at h
            subst h
            exact ⟨rfl, Or.inr rfl⟩
          · split at h
            · cases h
            · rename_i ret st1 hpc
              obtain ⟨h1, h2⟩ := parse_container_calloc lydctx st _ _ hext hctx hfmt hp hpc
              simp only at h1 h2
              split at h <;>
                (simp only [Option.some.injEq] at h; subst h; exact ⟨h1, h2⟩)
      · cases h

/-- A call of `lyd_parse_cbor_data` with a context and a tree pointer that
returns leaves `*tree` NULL, and its code is LY_SUCCESS or LY_EVALID. -/
theorem parse_cbor_data_top (R : lycbor_routines) (ctx : ly_ctx) (data : Option (List Nat))
    (data_len : Nat) (format : lyd_cbor_format) (parse_opts val_opts : Nat)
    (tree : List lyd_node) (e : LY_ERR) (t : Option (List lyd_node))
    (h : lyd_parse_cbor_data R (some ctx) data data_len format parse_opts val_opts (some tree)
      = some (e, t)) :
    t = some [] ∧ (e = LY_SUCCESS ∨ e = LY_EVALID) := by
  unfold lyd_parse_cbor_data at h
  simp only at h
  split at h
  · simp only [Option.some.injEq, Prod.mk.injEq] at h
    exact ⟨h.2.symm, Or.inl h.1.symm⟩
  · split at h
    · simp only [Option.some.injEq, Prod.mk.injEq] at h
      exact ⟨h.2.symm, Or.inl h.1.symm⟩
    · split at h
      · cases h
      · rename_i r hr
        obtain ⟨h1, h2⟩ := parse_cbor_top _ _ _ _ _ _ _ _ r rfl hr
        simp only [Option.some.injEq, Prod.mk.injEq] at h
        obtain ⟨he, ht⟩ := h
        subst he ht
        exact ⟨by rw [h1], h2⟩

theorem lycbor_ctx_next_load (R : lycbor_routines) (f : List Nat → Option cbor_item)
    (c : lycbor_ctx) (status : Option LYCBOR_PARSER_STATUS) :
    lycbor_ctx_next ⟨R.lycbor_next_value, R.lycbor_next_object_item,
      R.lycbor_next_array_item, f⟩ c status = lycbor_ctx_next R c status := by
  simp only [lycbor_ctx_next, lycbor_ctx_next_close]

theorem parse_cbor_init_load (R : lycbor_routines) (f : List Nat → Option cbor_item)
    (ctx : ly_ctx) (inp : ly_in) (parse_opts val_opts : Nat) (p : Option lyd_cbor_ctx) :
    lyd_parse_cbor_init ⟨R.lycbor_next_value, R.lycbor_next_object_item,
      R.lycbor_next_array_item, f⟩ ctx inp parse_opts val_opts p =
      lyd_parse_cbor_init R ctx inp parse_opts val_opts p := by
  simp only [lyd_parse_cbor_init, lycbor_ctx_new, lycbor_ctx_next_load]

/-! ## Lemmas on the inserted nodes -/

theorem parse_value_list (lydctx : lyd_cbor_ctx) (sn : lysc_node) (item : cbor_item)
    (h : sn.nodetype = LYS_LIST) :
    ∃ e, e ≠ LY_SUCCESS ∧ lydcbor_parse_value lydctx sn item = .error e := by
  have h1 : ¬ (sn.nodetype = LYS_LEAF ∨ sn.nodetype = LYS_LEAFLIST) := by rw [h]; decide
  have h2 : ¬ (sn.nodetype = LYS_ANYDATA ∨ sn.nodetype = LYS_ANYXML) := by rw [h]; decide
  cases hi : lydcbor_item_to_string item with
  | error e =>
    exact ⟨e, item_to_string_error_ne _ _ hi, by simp only [lydcbor_parse_value, hi]⟩
  | ok r =>
    obtain ⟨str_val, str_len⟩ := r
    exact ⟨LY_EVALID, by decide, by simp only [lydcbor_parse_value, hi, if_neg h1, if_neg h2]⟩

theorem parse_array_leaflist (lydctx : lyd_cbor_ctx) (s sn : lysc_node)
    (hc : lysc_node_child s = some sn)
    (hbits : sn.nodetype &&& (LYS_LEAFLIST ||| LYS_LIST) ≠ 0)
    (items : List cbor_item) (nodes : List lyd_node)
    (hall : List.Forall₂ (fun item node => lydcbor_parse_value lydctx sn item = .ok node)
      items nodes) :
    ∀ (c first parsed : List lyd_node),
      lydcbor_parse_array lydctx ⟨some (.inner s c), first, parsed⟩ items =
        (LY_SUCCESS, ⟨some (.inner s (c ++ nodes)), first, parsed ++ nodes⟩) := by
  induction hall with
  | nil => intro c first parsed; simp [lydcbor_parse_array]
  | cons hhead _ ih =>
    intro c first parsed
    rw [lydcbor_parse_array]
    simp only [lyd_node.schema, hc, if_pos hbits, hhead, lyd_insert_child, ih,
      List.append_assoc, List.singleton_append]

theorem parse_value_subtree (lydctx : lyd_cbor_ctx) (sn : lysc_node) (item : cbor_item)
    (node : lyd_node) (h : lydcbor_parse_value lydctx sn item = .ok node) :
    lyd_subtree_nodes node = [node] := by
  unfold lydcbor_parse_value at h
  split at h
  · cases h
  · split at h
    · simp only [lyd_create_term, Except.ok.injEq] at h
      subst h
      rw [lyd_subtree_nodes]
    · split at h
      · simp only [lyd_create_any, Except.ok.injEq] at h
        subst h
        rw [lyd_subtree_nodes]
      · cases h

theorem pc_extends_refl (st : pc_state) (hp : pc_parent_inner st) : pc_extends st st [] := by
  refine ⟨by simp [lyd_forest_nodes], ?_⟩
  rcases hp with h | ⟨s, c, h⟩
  · exact Or.inl ⟨h, h, by simp⟩
  · exact Or.inr ⟨s, c, h, by simpa using h, rfl⟩

theorem pc_parent_inner_insert (st : pc_state) (parsed : List lyd_node) (node : lyd_node)
    (hp : pc_parent_inner st) :
    pc_parent_inner (pc_insert ⟨st.parent, st.first, parsed⟩ node) := by
  rcases hp with h | ⟨s, c, h⟩
  · exact Or.inl (by simp [pc_insert, h])
  · exact Or.inr ⟨s, c ++ [node], by simp [pc_insert, h, lyd_insert_child]⟩

theorem pc_extends_insert (st st1 : pc_state) (parsed : List lyd_node) (node : lyd_node)
    (new : List lyd_node) (hp : pc_parent_inner st)
    (hparsed : parsed ++ [node] = st.parsed ++ lyd_subtree_nodes node)
    (h : pc_extends (pc_insert ⟨st.parent, st.first, parsed⟩ node) st1 new) :
    pc_extends st st1 (node :: new) := by
  obtain ⟨h1, h2⟩ := h
  rcases hp with hn | ⟨s, c, hs⟩
  · simp only [pc_insert, hn] at h1 h2
    refine ⟨by rw [h1, hparsed, lyd_forest_nodes, List.append_assoc], Or.inl ⟨hn, ?_⟩⟩
    rcases h2 with ⟨_, h3, h4⟩ | ⟨s, c, h3, _⟩
    · exact ⟨h3, by rw [h4, List.append_assoc, List.singleton_append]⟩
    · cases h3
  · simp only [pc_insert, hs, lyd_insert_child] at h1 h2
    refine ⟨by rw [h1, hparsed, lyd_forest_nodes, List.append_assoc], Or.inr ⟨s, c, hs, ?_⟩⟩
    rcases h2 with ⟨h3, _⟩ | ⟨s2, c2, h3, h4, h5⟩
    · cases h3
    · simp only [Option.some.injEq, lyd_node.inner.injEq] at h3
      obtain ⟨hs2, hc2⟩ := h3
      subst hs2 hc2
      exact ⟨by rw [h4, List.append_assoc, List.singleton_append], h5⟩

theorem parse_array_extends (lydctx : lyd_cbor_ctx) (items : List cbor_item) :
    ∀ (st st1 : pc_state), pc_parent_inner st →
      lydcbor_parse_array lydctx st items = (LY_SUCCESS, st1) →
      ∃ new, pc_extends st st1 new := by
  induction items with
  | nil =>
    intro st st1 hp h
    simp only [lydcbor_parse_array, Prod.mk.injEq, true_and] at h
    subst h
    exact ⟨[], pc_extends_refl st hp⟩
  | cons item rest ih =>
    intro st st1 hp h
    rw [lydcbor_parse_array] at h
    split at h
    · exact ih st st1 hp h
    · rename_i parent hpar
      split at h
      · exact ih st st1 hp h
      · rename_i snode hsn
        split at h
        · split at h
          · rename_i e he
            simp only [Prod.mk.injEq] at h
            exact absurd h.1 (parse_value_error_ne _ _ _ _ he)
          · rename_i node hnode
            have hmid : (⟨some (lyd_insert_child parent node), st.first, st.parsed ++ [node]⟩ :
                pc_state) = pc_insert ⟨st.parent, st.first, st.parsed⟩ node := by
              simp [pc_insert, hpar]
            rw [hmid] at h
            obtain ⟨new, hnew⟩ := ih _ st1 (pc_parent_inner_insert st st.parsed node hp) h
            exact ⟨node :: new, pc_extends_insert st st1 st.parsed node new hp
              (by rw [parse_value_subtree _ _ _ _ hnode]) hnew⟩
        · exact ih st st1 hp h

mutual
theorem parse_container_extends (lydctx : lyd_cbor_ctx) :
    ∀ (item : cbor_item) (st st1 : pc_state), pc_parent_inner st →
      lydcbor_parse_container lydctx st item = some (LY_SUCCESS, st1) →
      ∃ new, pc_extends st st1 new
  | .map pairs, st, st1, hp, h => by
    rw [lydcbor_parse_container] at h
    exact parse_map_extends lydctx pairs st none st1 hp h
  | .array items, st, st1, hp, h => by
    rw [lydcbor_parse_container] at h
    simp only [Option.some.injEq] at h
    exact parse_array_extends lydctx items st st1 hp h
  | .uint _, st, st1, hp, h => by
    simp [lydcbor_parse_container] at h; subst h; exact ⟨[], pc_extends_refl _ hp⟩
  | .negint _, st, st1, hp, h => by
    simp [lydcbor_parse_container] at h; subst h; exact ⟨[], pc_extends_refl _ hp⟩
  | .bytestring _, st, st1, hp, h => by
    simp [lydcbor_parse_container] at h; subst h; exact ⟨[], pc_extends_refl _ hp⟩
  | .bytestring_chunked _, st, st1, hp, h => by
    simp [lydcbor_parse_container] at h; subst h; exact ⟨[], pc_extends_refl _ hp⟩
  | .string _, st, st1, hp, h => by
    simp [lydcbor_parse_container] at h; subst h; exact ⟨[], pc_extends_refl _ hp⟩
  | .string_chunked _, st, st1, hp, h => by
    simp [lydcbor_parse_container] at h; subst h; exact ⟨[], pc_extends_refl _ hp⟩
  | .tag _ _, st, st1, hp, h => by
    simp [lydcbor_parse_container] at h; subst h; exact ⟨[], pc_extends_refl _ hp⟩
  | .ctrl _, st, st1, hp, h => by
    simp [lydcbor_parse_container] at h; subst h; exact ⟨[], pc_extends_refl _ hp⟩
  | .float _, st, st1, hp, h => by
    simp [lydcbor_parse_container] at h; subst h; exact ⟨[], pc_extends_refl _ hp⟩
theorem parse_map_extends (lydctx : lyd_cbor_ctx) :
    ∀ (pairs : List (cbor_item × cbor_item)) (st : pc_state) (s : Option lysc_node)
      (st1 : pc_state), pc_parent_inner st →
      lydcbor_parse_map lydctx st s pairs = some (LY_SUCCESS, st1) →
      ∃ new, pc_extends st st1 new
  | [], st, s, st1, hp, h => by
    simp only [lydcbor_parse_map, Option.some.injEq, Prod.mk.injEq, true_and] at h
    subst h
    exact ⟨[], pc_extends_refl st hp⟩
  | (key_item, value_item) :: rest, st, s, st1, hp, h => by
    rw [lydcbor_parse_map] at h
    split at h
    · rename_i e he
      simp only [Option.some.injEq, Prod.mk.injEq] at h
      exact absurd h.1 (get_key_string_error_ne _ _ _ he)
    · split at h
      · cases h
      · split at h
        · cases h
        · exact parse_map_extends lydctx rest st none st1 hp h
      · rename_i sn _
        split at h
        · split at h
          · rename_i e he
            simp only [Option.some.injEq, Prod.mk.injEq] at h
            exact absurd h.1 (parse_value_error_ne _ _ _ _ he)
          · rename_i node hnode
            obtain ⟨new, hnew⟩ := parse_map_extends lydctx rest _ _ st1
              (pc_parent_inner_insert st st.parsed node hp) h
            exact ⟨node :: new, pc_extends_insert st st1 st.parsed node new hp
              (by rw [parse_value_subtree _ _ _ _ hnode]) hnew⟩
        · split at h
          · split at h
            · rename_i e he
              simp [lyd_create_inner] at he
            · rename_i node hnode
              simp only [lyd_create_inner, Except.ok.injEq] at hnode
              subst hnode
              split at h
              · split at h
                · cases h
                · rename_i ret sub hsub
                  split at h
                  · rename_i hret
                    simp only [Option.some.injEq, Prod.mk.injEq] at h
                    exact absurd h.1 hret
                  · rename_i hret
                    simp only [ne_eq, Decidable.not_not] at hret
                    subst hret
                    obtain ⟨newc, hc1, hc2⟩ := parse_container_extends lydctx value_item
                      ⟨some (.inner sn []), lyd_node_child (.inner sn []), st.parsed⟩ sub
                      (Or.inr ⟨sn, [], rfl⟩) hsub
                    have hpar : sub.parent = some (.inner sn newc) := by
                      rcases hc2 with ⟨h3, _⟩ | ⟨s2, c2, h3, h4, _⟩
                      · cases h3
                      · simp only [Option.some.injEq, lyd_node.inner.injEq] at h3
                        obtain ⟨hs2, hcc⟩ := h3
                        subst hs2 hcc
                        simpa using h4
                    rw [hpar, Option.getD_some] at h
                    obtain ⟨new, hnew⟩ := parse_map_extends lydctx rest _ _ st1
                      (pc_parent_inner_insert st sub.parsed (.inner sn newc) hp) h
                    exact ⟨.inner sn newc :: new,
                      pc_extends_insert st st1 sub.parsed (.inner sn newc) new hp
                        (by rw [hc1, lyd_subtree_nodes, List.append_assoc]) hnew⟩
              · obtain ⟨new, hnew⟩ := parse_map_extends lydctx rest _ _ st1
                  (pc_parent_inner_insert st st.parsed (.inner sn []) hp) h
                exact ⟨.inner sn [] :: new,
                  pc_extends_insert st st1 st.parsed (.inner sn []) new hp
                    (by rw [lyd_subtree_nodes, lyd_forest_nodes, List.nil_append]) hnew⟩
          · simp only [Option.some.injEq, Prod.mk.injEq] at h
            exact absurd h.1 (by decide)
end

/-! ## Properties of the entry points, the scalar conversion and the tokenizer -/

/-- C11 (evaluation of the code): `lyd_parse_cbor_data` does not use its format
argument: called with the SID variant it returns what it returns with the
Named variant, and it never returns LY_ENOT. -/
theorem lyd_parse_cbor_data_ignores_format (R : lycbor_routines) (ctx : Option ly_ctx)
    (data : Option (List Nat)) (data_len parse_opts val_opts : Nat)
    (tree : Option (List lyd_node)) :
    lyd_parse_cbor_data R ctx data data_len LYD_CBOR_SID parse_opts val_opts tree =
      lyd_parse_cbor_data R ctx data data_len LYD_CBOR_NAMED parse_opts val_opts tree ∧
    ∀ t, lyd_parse_cbor_data R ctx data data_len LYD_CBOR_SID parse_opts val_opts tree ≠
      some (LY_ENOT, t) := by
  refine ⟨rfl, fun t h => ?_⟩
  cases ctx with
  | none => simp [lyd_parse_cbor_data] at h
  | some c =>
    cases tree with
    | none => simp [lyd_parse_cbor_data] at h
    | some tr =>
      rcases (parse_cbor_data_top R c data data_len _ parse_opts val_opts tr _ _ h).2 with h2 | h2
        <;> cases h2

/-- Witness of C11: the document A1 61 61 01, the map with the pair "a" : 1,
parsed with the SID variant requested. -/
theorem lyd_parse_cbor_data_ignores_format_witness :
    lyd_parse_cbor_data short_routines (some schema_ctx) (some [0xA1, 0x61, 0x61, 0x01]) 4
        LYD_CBOR_SID 0 0 (some []) =
      lyd_parse_cbor_data short_routines (some schema_ctx) (some [0xA1, 0x61, 0x61, 0x01]) 4
        LYD_CBOR_NAMED 0 0 (some []) ∧
    lyd_parse_cbor_data short_routines (some schema_ctx) (some [0xA1, 0x61, 0x61, 0x01]) 4
        LYD_CBOR_SID 0 0 (some []) = some (LY_SUCCESS, some []) ∧
    lyd_parse_cbor_data peek_routines (some schema_ctx) (some [0xA1, 0x61, 0x61, 0x01]) 4
        LYD_CBOR_SID 0 0 (some []) = none :=
  ⟨(lyd_parse_cbor_data_ignores_format short_routines (some schema_ctx)
      (some [0xA1, 0x61, 0x61, 0x01]) 4 0 0 (some [])).1, rfl, rfl⟩

/-- C13 (evaluation of the code): for an anydata or anyxml schema node
`lydcbor_parse_value` converts the value to a string before it looks at the
node type: it returns the error of `lydcbor_item_to_string` when there is
one, LY_EVALID for every map, array and tagged item, and creates the Opaque
node with the raw item only for a value that has a string form. -/
theorem parse_value_any_needs_string (lydctx : lyd_cbor_ctx) (snode : lysc_node)
    (item : cbor_item)
    (hs : snode.nodetype = LYS_ANYDATA ∨ snode.nodetype = LYS_ANYXML) :
    (∀ e, lydcbor_item_to_string item = .error e →
      lydcbor_parse_value lydctx snode item = .error e) ∧
    (∀ r, lydcbor_item_to_string item = .ok r →
      lydcbor_parse_value lydctx snode item = .ok (.any snode item)) ∧
    (∀ pairs, lydcbor_parse_value lydctx snode (.map pairs) = .error LY_EVALID) ∧
    (∀ items, lydcbor_parse_value lydctx snode (.array items) = .error LY_EVALID) ∧
    (∀ n it, lydcbor_parse_value lydctx snode (.tag n it) = .error LY_EVALID) := by
  have hleaf : ¬ (snode.nodetype = LYS_LEAF ∨ snode.nodetype = LYS_LEAFLIST) := by
    rcases hs with h | h <;> rw [h] <;> decide
  refine ⟨fun e he => ?_, fun r hr => ?_, fun pairs => ?_, fun items => ?_, fun n it => ?_⟩
  · simp only [lydcbor_parse_value, he]
  · obtain ⟨str_val, str_len⟩ := r
    simp only [lydcbor_parse_value, hr, if_neg hleaf, if_pos hs, lyd_create_any]
  · simp only [lydcbor_parse_value, lydcbor_item_to_string]
  · simp only [lydcbor_parse_value, lydcbor_item_to_string]
  · simp only [lydcbor_parse_value, lydcbor_item_to_string]

/-- Witness of C13: the empty map as value of the anydata `blob`, alone and in the
document with the pair "blob" : (empty map); the integer 1 is accepted. -/
theorem parse_value_any_needs_string_witness :
    lydcbor_parse_value schema_lydctx_lists schema_any_blob (.map []) = .error LY_EVALID ∧
    lydcbor_parse_value schema_lydctx_lists schema_any_blob (.uint 1) =
      .ok (.any schema_any_blob (.uint 1)) ∧
    lydcbor_parse_container schema_lydctx_lists pc_empty (.map [(.string "blob", .map [])]) =
      some (LY_EVALID, pc_empty) :=
  ⟨(parse_value_any_needs_string schema_lydctx_lists schema_any_blob (.map [])
      (Or.inl rfl)).2.2.1 [],
   (parse_value_any_needs_string schema_lydctx_lists schema_any_blob (.uint 1)
      (Or.inl rfl)).2.1 ("1", 1) rfl,
   rfl⟩

/-- C14 (evaluation of the code): for a control item whose value is not true,
false or null, `lydcbor_item_to_string` sets LY_EVALID and then returns
LY_EMEM from the check of the string pointer; no string is yielded. -/
theorem item_to_string_ctrl_unsupported (value : Nat) (h1 : value ≠ CBOR_CTRL_TRUE)
    (h2 : value ≠ CBOR_CTRL_FALSE) (h3 : value ≠ CBOR_CTRL_NULL) :
    lydcbor_item_to_string (.ctrl value) = .error LY_EMEM ∧ LY_EMEM ≠ LY_EVALID := by
  refine ⟨?_, by decide⟩
  simp only [lydcbor_item_to_string, if_neg h1, if_neg h2, if_neg h3]

/-- Witness of C14: the control value `undefined`. -/
theorem item_to_string_ctrl_unsupported_witness :
    lydcbor_item_to_string (.ctrl CBOR_CTRL_UNDEF) = .error LY_EMEM ∧ LY_EMEM ≠ LY_EVALID :=
  item_to_string_ctrl_unsupported CBOR_CTRL_UNDEF (by decide) (by decide) (by decide)

/-- C15 (evaluation of the code): under a parent whose first schema child is a
list, `lydcbor_parse_container` fails on every non-empty array and inserts
nothing, with LY_EVALID when the first element is a map; under a parent whose
first schema child is a leaf-list it succeeds and appends, in element order,
the node of each element. -/
theorem parse_container_array_repeatable (lydctx : lyd_cbor_ctx) (st : pc_state)
    (s sn : lysc_node) (c : List lyd_node)
    (hp : st.parent = some (.inner s c)) (hc : lysc_node_child s = some sn) :
    (sn.nodetype = LYS_LIST → ∀ item rest, ∃ e, e ≠ LY_SUCCESS ∧
      lydcbor_parse_container lydctx st (.array (item :: rest)) = some (e, st)) ∧
    (sn.nodetype = LYS_LIST → ∀ pairs rest,
      lydcbor_parse_container lydctx st (.array (.map pairs :: rest)) = some (LY_EVALID, st)) ∧
    (sn.nodetype = LYS_LEAFLIST → ∀ items nodes,
      List.Forall₂ (fun item node => lydcbor_parse_value lydctx sn item = .ok node)
        items nodes →
      nodes.length = items.length ∧
      lydcbor_parse_container lydctx st (.array items) =
        some (LY_SUCCESS, ⟨some (.inner s (c ++ nodes)), st.first, st.parsed ++ nodes⟩)) := by
  refine ⟨fun hl item rest => ?_, fun hl pairs rest => ?_, fun hl items nodes hall => ?_⟩
  · obtain ⟨e, he, hv⟩ := parse_value_list lydctx sn item hl
    have hbits : sn.nodetype &&& (LYS_LEAFLIST ||| LYS_LIST) ≠ 0 := by rw [hl]; decide
    refine ⟨e, he, ?_⟩
    rw [lydcbor_parse_container, lydcbor_parse_array]
    simp only [hp, lyd_node.schema, hc, if_pos hbits, hv]
  · have hbits : sn.nodetype &&& (LYS_LEAFLIST ||| LYS_LIST) ≠ 0 := by rw [hl]; decide
    have hv : lydcbor_parse_value lydctx sn (.map pairs) = .error LY_EVALID := by
      simp only [lydcbor_parse_value, lydcbor_item_to_string]
    rw [lydcbor_parse_container, lydcbor_parse_array]
    simp only [hp, lyd_node.schema, hc, if_pos hbits, hv]
  · have hbits : sn.nodetype &&& (LYS_LEAFLIST ||| LYS_LIST) ≠ 0 := by rw [hl]; decide
    refine ⟨hall.length_eq.symm, ?_⟩
    have h := parse_array_leaflist lydctx s sn hc hbits items nodes hall c st.first st.parsed
    rw [lydcbor_parse_container]
    obtain ⟨parent, first, parsed⟩ := st
    simp only at hp
    subst hp
    rw [h]

/-- Witness of C15: the array with the map "inner" : 7 under the container
`table`, whose first child is the list `entry`, and the array of "a" and "b"
under the container `tags`, whose first child is the leaf-list `tag`. -/
theorem parse_container_array_repeatable_witness :
    lydcbor_parse_container schema_lydctx_lists ⟨some (.inner schema_table []), [], []⟩
        (.array (.map [(.string "inner", .uint 7)] :: [])) =
      some (LY_EVALID, ⟨some (.inner schema_table []), [], []⟩) ∧
    lydcbor_parse_container schema_lydctx_lists pc_empty
        (.map [(.string "table", .array [.map [(.string "inner", .uint 7)]])]) =
      some (LY_EVALID, pc_empty) ∧
    ([lyd_node.term schema_leaflist_tag "a", .term schema_leaflist_tag "b"].length =
        [cbor_item.string "a", .string "b"].length ∧
      lydcbor_parse_container schema_lydctx_lists ⟨some (.inner schema_tags []), [], []⟩
        (.array [.string "a", .string "b"]) =
      some (LY_SUCCESS, ⟨some (.inner schema_tags ([] ++
          [.term schema_leaflist_tag "a", .term schema_leaflist_tag "b"])), [],
        [] ++ [.term schema_leaflist_tag "a", .term schema_leaflist_tag "b"]⟩)) :=
  ⟨(parse_container_array_repeatable schema_lydctx_lists
      ⟨some (.inner schema_table []), [], []⟩ schema_table schema_list_entry [] rfl rfl).2.1
      rfl [(.string "inner", .uint 7)] [],
   rfl,
   (parse_container_array_repeatable schema_lydctx_lists
      ⟨some (.inner schema_tags []), [], []⟩ schema_tags schema_leaflist_tag [] rfl rfl).2.2
      rfl [.string "a", .string "b"]
      [.term schema_leaflist_tag "a", .term schema_leaflist_tag "b"]
      (.cons rfl (.cons rfl .nil))⟩

/-- C17 (evaluation of the code): `lyd_parse_cbor_data` does not use `data_len`
beyond the test for 0, and hands the decoder at most `strlen (data)` bytes:
a decoder that refuses longer inputs changes nothing. For the document
A1 61 61 00, the map with the pair "a" : 0, `strlen` is 3, not 4, and the
call fails although the four bytes decode. -/
theorem lyd_parse_cbor_data_ignores_data_len (R : lycbor_routines) (ctx : Option ly_ctx)
    (d : List Nat) (n m : Nat) (format : lyd_cbor_format) (parse_opts val_opts : Nat)
    (tree : Option (List lyd_node)) :
    lyd_parse_cbor_data R ctx (some d) (n + 1) format parse_opts val_opts tree =
      lyd_parse_cbor_data R ctx (some d) (m + 1) format parse_opts val_opts tree ∧
    lyd_parse_cbor_data ⟨R.lycbor_next_value, R.lycbor_next_object_item,
        R.lycbor_next_array_item,
        fun bytes => if bytes.length ≤ strlen d then R.cbor_load bytes else none⟩
        ctx (some d) (n + 1) format parse_opts val_opts tree =
      lyd_parse_cbor_data R ctx (some d) (n + 1) format parse_opts val_opts tree ∧
    strlen [0xA1, 0x61, 0x61, 0x00] = 3 ∧
    cbor_load_short [0xA1, 0x61, 0x61, 0x00] = some (.map [(.string "a", .uint 0)]) ∧
    lyd_parse_cbor_data peek_routines (some schema_ctx) (some [0xA1, 0x61, 0x61, 0x00]) 4
      LYD_CBOR_NAMED 0 0 (some []) = some (LY_EVALID, some []) := by
  refine ⟨?_, ?_, rfl, rfl, rfl⟩
  · simp only [lyd_parse_cbor_data, Nat.succ_ne_zero, if_false]
  · simp only [lyd_parse_cbor_data, lyd_parse_cbor, parse_cbor_init_load, List.length_take,
      min_le_left, if_true]

/-- C19: when the status on top of the stack is Error, `lycbor_ctx_next` returns
LY_EINT, which differs from LY_EVALID, leaves the context (status stack,
pending value, input) as it was and does not write the status output. -/
theorem lycbor_ctx_next_error (R : lycbor_routines) (cborctx : lycbor_ctx)
    (status : Option LYCBOR_PARSER_STATUS)
    (h : lycbor_ctx_status cborctx = LYCBOR_ERROR) :
    lycbor_ctx_next R cborctx status = (LY_EINT, cborctx, status) ∧ LY_EINT ≠ LY_EVALID := by
  refine ⟨?_, by decide⟩
  simp [lycbor_ctx_next, h]

/-- Witness of C19: the stack Object, Error with a pending value, the output
holding Object. -/
theorem lycbor_ctx_next_error_witness :
    lycbor_ctx_next short_routines
        ⟨some schema_ctx, ⟨[0x01]⟩, [LYCBOR_OBJECT, LYCBOR_ERROR], some "x", 1, false⟩
        (some LYCBOR_OBJECT) =
      (LY_EINT,
        ⟨some schema_ctx, ⟨[0x01]⟩, [LYCBOR_OBJECT, LYCBOR_ERROR], some "x", 1, false⟩,
        some LYCBOR_OBJECT) ∧ LY_EINT ≠ LY_EVALID :=
  lycbor_ctx_next_error short_routines
    ⟨some schema_ctx, ⟨[0x01]⟩, [LYCBOR_OBJECT, LYCBOR_ERROR], some "x", 1, false⟩
    (some LYCBOR_OBJECT) rfl

/-- C20 (counterexample): with an empty status stack and the input 0x01,
`lycbor_ctx_next` reads the value: it consumes the byte, pushes Number and
reports Number, not End. -/
theorem lycbor_ctx_next_end_counterexample :
    lycbor_ctx_status ⟨some schema_ctx, ⟨[0x01]⟩, [], none, 0, false⟩ = LYCBOR_END ∧
    lycbor_ctx_next short_routines ⟨some schema_ctx, ⟨[0x01]⟩, [], none, 0, false⟩
        (some LYCBOR_END) =
      (LY_SUCCESS, ⟨some schema_ctx, ⟨[]⟩, [LYCBOR_NUMBER], none, 0, false⟩,
        some LYCBOR_NUMBER) ∧
    LYCBOR_NUMBER ≠ LYCBOR_END :=
  ⟨rfl, rfl, by decide⟩

/-- C20 (amended): with an empty status stack (status End) `lycbor_ctx_next`
starts a top-level read: it hands the unchanged context to `lycbor_next_value`
and returns its code and its context, reporting the status that the read
leaves when it succeeds. -/
theorem lycbor_ctx_next_end (R : lycbor_routines) (cborctx : lycbor_ctx)
    (status : Option LYCBOR_PARSER_STATUS) (h : cborctx.status = []) :
    lycbor_ctx_status cborctx = LYCBOR_END ∧
    lycbor_ctx_next R cborctx status =
      ((R.lycbor_next_value cborctx false).1, (R.lycbor_next_value cborctx false).2,
        if (R.lycbor_next_value cborctx false).1 = LY_SUCCESS ∧ status.isSome then
          some (lycbor_ctx_status (R.lycbor_next_value cborctx false).2)
        else status) := by
  have hs : lycbor_ctx_status cborctx = LYCBOR_END := by
    simp [lycbor_ctx_status, h]
  refine ⟨hs, ?_⟩
  simp only [lycbor_ctx_next, hs]
  split <;> rfl

/-- Witness of C20: the first read of `lycbor_ctx_new` on the document A0, the
empty map. -/
theorem lycbor_ctx_next_end_witness :
    lycbor_ctx_status ⟨some schema_ctx, ⟨[0xA0]⟩, [], none, 0, false⟩ = LYCBOR_END ∧
    lycbor_ctx_next short_routines ⟨some schema_ctx, ⟨[0xA0]⟩, [], none, 0, false⟩ none =
      (LY_SUCCESS, ⟨some schema_ctx, ⟨[]⟩, [LYCBOR_OBJECT], none, 0, false⟩, none) :=
  lycbor_ctx_next_end short_routines ⟨some schema_ctx, ⟨[0xA0]⟩, [], none, 0, false⟩ none rfl

/-! ## Lemmas on the top-level lookup and the tokenizer -/

theorem find_top_level_first_match (mods : List lys_module) (key : String) :
    lydcbor_find_top_level mods key none = top_level_first_match mods key := by
  induction mods with
  | nil => rfl
  | cons mod rest ih =>
    unfold lydcbor_find_top_level top_level_first_match
    rw [List.findSome?_cons]
    cases hc : mod.compiled with
    | none => simpa only [top_level_first_match] using ih
    | some c =>
      simp only
      by_cases he : c.data.isEmpty = true
      · have hnil : c.data = [] := List.isEmpty_iff.mp he
        simp only [he, if_true, hnil, lys_find_child, List.find?_nil]
        simpa only [top_level_first_match] using ih
      · simp only [he, Bool.false_eq_true, if_false]
        cases hf : lys_find_child c.data key with
        | none => simpa only [top_level_first_match] using ih
        | some n => rfl

theorem first_match_no_data (mods : List lys_module) (key : String)
    (h : has_data mods = false) : top_level_first_match mods key = none := by
  rw [← find_top_level_first_match, find_top_level_no_data mods key none h]

theorem status_of_container_stack (cborctx : lycbor_ctx)
    (h : ∀ s ∈ cborctx.status, s = LYCBOR_OBJECT ∨ s = LYCBOR_ARRAY) :
    lycbor_ctx_status cborctx = LYCBOR_OBJECT ∨ lycbor_ctx_status cborctx = LYCBOR_ARRAY ∨
      lycbor_ctx_status cborctx = LYCBOR_END := by
  unfold lycbor_ctx_status
  cases hl : cborctx.status.getLast? with
  | none => exact Or.inr (Or.inr rfl)
  | some s =>
    rcases h s (List.mem_of_getLast?_eq_some hl) with h1 | h1
    · exact Or.inl h1
    · exact Or.inr (Or.inl h1)

/-! ## Properties of the printer, the scalar conversion, the lookup and the tokenizer -/

/-- C21: `lyd_print_cbor_data` returns LY_ENOT for every root, format, output
handler and option value, and leaves the output handler as it was: nothing
is written. -/
theorem lyd_print_cbor_data_not_implemented (root : Option lyd_node)
    (format : lyd_cbor_format) (out : Option ly_out) (options : Nat) :
    lyd_print_cbor_data root format out options = (LY_ENOT, out) := rfl

/-- C22 (evaluation of the code): for a negative-integer item with argument n
below 2^63 `lydcbor_item_to_string` yields the decimal representation of
-1 - n; for n from 2^63 to 2^64 - 1 the cast to `int64_t` wraps and it yields
the decimal representation of 2^64 - 1 - n, which is not negative: n = 2^63
gives "9223372036854775807" and n = 2^64 - 1 gives "0". -/
theorem item_to_string_negint (n : Nat) (hn : n < 2 ^ 64) :
    (n < 2 ^ 63 → lydcbor_item_to_string (.negint n) =
      .ok (toString (-1 - (n : Int)), (toString (-1 - (n : Int))).utf8ByteSize)) ∧
    (2 ^ 63 ≤ n → lydcbor_item_to_string (.negint n) =
      .ok (toString ((2 : Int) ^ 64 - 1 - (n : Int)),
        (toString ((2 : Int) ^ 64 - 1 - (n : Int))).utf8ByteSize)) ∧
    (2 ^ 63 ≤ n → (0 : Int) ≤ (2 : Int) ^ 64 - 1 - (n : Int)) ∧
    lydcbor_item_to_string (.negint 0) = .ok ("-1", 2) ∧
    lydcbor_item_to_string (.negint (2 ^ 63)) = .ok ("9223372036854775807", 19) ∧
    lydcbor_item_to_string (.negint (2 ^ 64 - 1)) = .ok ("0", 1) := by
  refine ⟨fun h => ?_, fun h => ?_, fun _ => ?_, rfl, rfl, rfl⟩
  · have hv : (-1 : Int) - to_int64 n = -1 - (n : Int) := by
      simp only [to_int64, Nat.mod_eq_of_lt hn, h, if_true]
    simp only [lydcbor_item_to_string, hv]
  · have hlt : ¬ n < 2 ^ 63 := Nat.not_lt.mpr h
    have hv : (-1 : Int) - to_int64 n = (2 : Int) ^ 64 - 1 - (n : Int) := by
      simp only [to_int64, Nat.mod_eq_of_lt hn, hlt, if_false]
      omega
    simp only [lydcbor_item_to_string, hv]
  · have : (n : Int) < 2 ^ 64 := by exact_mod_cast hn
    omega

/-- Witness of C22: the arguments 5 and 2^63 + 1. -/
theorem item_to_string_negint_witness :
    lydcbor_item_to_string (.negint 5) = .ok ("-6", 2) ∧
    lydcbor_item_to_string (.negint (2 ^ 63 + 1)) = .ok ("9223372036854775806", 19) :=
  ⟨(item_to_string_negint 5 (by decide)).1 (by decide),
   (item_to_string_negint (2 ^ 63 + 1) (by decide)).2.1 (by decide)⟩

/-- C23: without a parent and without an extension scope, the schema node that
`lydcbor_parse_container` chooses for a key is the first match of the module
list, whatever an earlier iteration left in the local `snode` (nothing, or
the node chosen for an earlier key); the first match is the node found in a
module with compiled data before which no module holds a node of the name,
and there is none exactly when no module holds one. -/
theorem find_snode_first_match (lydctx : lyd_cbor_ctx) (ctx : ly_ctx)
    (hext : lydctx.ext = none) (hctx : lydctx.ctx = some ctx) :
    (∀ key snode, (snode = none ∨ ∃ key0, snode = top_level_first_match ctx.list key0) →
      lydcbor_find_snode lydctx none key snode =
        some (top_level_first_match ctx.list key)) ∧
    (∀ key n, top_level_first_match ctx.list key = some n ↔
      ∃ before mod after compiled, ctx.list = before ++ mod :: after ∧
        mod.compiled = some compiled ∧ lys_find_child compiled.data key = some n ∧
        ∀ m ∈ before, ∀ c, m.compiled = some c → lys_find_child c.data key = none) ∧
    (∀ key, top_level_first_match ctx.list key = none ↔
      ∀ m ∈ ctx.list, ∀ c, m.compiled = some c → lys_find_child c.data key = none) ∧
    (∀ st pairs snode, st.parent = none →
      (snode = none ∨ ∃ key0, snode = top_level_first_match ctx.list key0) →
      lydcbor_parse_map lydctx st snode pairs = lydcbor_parse_map lydctx st none pairs) := by
  have hnone : ∀ (m : lys_module) (key : String),
      (match m.compiled with
        | none => none
        | some compiled => lys_find_child compiled.data key) = none ↔
      ∀ c, m.compiled = some c → lys_find_child c.data key = none := by
    intro m key
    cases hc : m.compiled with
    | none => simp
    | some c => simp
  have hfind : ∀ key snode,
      (snode = none ∨ ∃ key0, snode = top_level_first_match ctx.list key0) →
      lydcbor_find_snode lydctx none key snode =
        some (top_level_first_match ctx.list key) := by
    intro key snode hs
    simp only [lydcbor_find_snode, hext, hctx, Option.some.injEq]
    cases hd : has_data ctx.list with
    | true =>
      rw [find_top_level_has_data _ _ _ hd, find_top_level_first_match]
    | false =>
      rw [find_top_level_no_data _ _ _ hd, first_match_no_data _ _ hd]
      rcases hs with h | ⟨key0, h⟩
      · exact h
      · rw [h, first_match_no_data _ _ hd]
  refine ⟨hfind, fun key n => ?_, fun key => ?_, fun st pairs snode hp hs => ?_⟩
  · unfold top_level_first_match
    rw [List.findSome?_eq_some_iff]
    constructor
    · rintro ⟨before, mod, after, hl, hf, hb⟩
      cases hc : mod.compiled with
      | none => simp [hc] at hf
      | some c =>
        simp only [hc] at hf
        exact ⟨before, mod, after, c, hl, hc, hf, fun m hm => (hnone m key).mp (hb m hm)⟩
    · rintro ⟨before, mod, after, c, hl, hc, hf, hb⟩
      exact ⟨before, mod, after, hl, by simp only [hc, hf],
        fun m hm => (hnone m key).mpr (hb m hm)⟩
  · unfold top_level_first_match
    rw [List.findSome?_eq_none_iff]
    exact ⟨fun h m hm => (hnone m key).mp (h m hm), fun h m hm => (hnone m key).mpr (h m hm)⟩
  · cases pairs with
    | nil => simp only [lydcbor_parse_map]
    | cons p rest =>
      obtain ⟨key_item, value_item⟩ := p
      rw [lydcbor_parse_map, lydcbor_parse_map]
      cases hk : lydcbor_get_key_string lydctx key_item with
      | error e => rfl
      | ok kv =>
        obtain ⟨key_str, key_len⟩ := kv
        simp only [hp, Option.map_none', hfind key_str snode hs,
          hfind key_str none (Or.inl rfl)]

/-- Witness of C23: the keys "name" and "zzz" in the context whose first module
is not implemented, the local `snode` holding the node chosen for "outer". -/
theorem find_snode_first_match_witness :
    lydcbor_find_snode (schema_lydctx 0 LYD_CBOR_NAMED) none "name" (some schema_outer) =
      some (some schema_leaf_name) ∧
    lydcbor_find_snode (schema_lydctx 0 LYD_CBOR_NAMED) none "zzz" (some schema_outer) =
      some none :=
  ⟨(find_snode_first_match (schema_lydctx 0 LYD_CBOR_NAMED) schema_ctx rfl rfl).1 "name"
      (some schema_outer) (Or.inr ⟨"outer", rfl⟩),
   (find_snode_first_match (schema_lydctx 0 LYD_CBOR_NAMED) schema_ctx rfl rfl).1 "zzz"
      (some schema_outer) (Or.inr ⟨"outer", rfl⟩)⟩

/-- C24 (evaluation of the code): when the status on top of the stack is Object,
`lycbor_ctx_next` calls `lycbor_next_object_name`, which is a stub: the call
returns LY_SUCCESS, the context is unchanged and the status reported is still
Object. -/
theorem lycbor_ctx_next_object (R : lycbor_routines) (cborctx : lycbor_ctx)
    (status : Option LYCBOR_PARSER_STATUS)
    (h : lycbor_ctx_status cborctx = LYCBOR_OBJECT) :
    lycbor_ctx_next R cborctx status =
      (LY_SUCCESS, cborctx, if status.isSome then some LYCBOR_OBJECT else status) ∧
    lycbor_ctx_status (lycbor_ctx_next R cborctx status).2.1 = LYCBOR_OBJECT := by
  have h1 : lycbor_ctx_next R cborctx status =
      (LY_SUCCESS, cborctx, if status.isSome then some LYCBOR_OBJECT else status) := by
    simp only [lycbor_ctx_next, h, lycbor_next_object_name, true_and]
    split <;> simp_all
  exact ⟨h1, by rw [h1]; exact h⟩

/-- Witness of C24: the state after the first read of the one-pair map
A1 61 61 01, the stack holding Object, the output holding Object. -/
theorem lycbor_ctx_next_object_witness :
    lycbor_ctx_next short_routines
        ⟨some schema_ctx, ⟨[0x61, 0x61, 0x01]⟩, [LYCBOR_OBJECT], none, 0, false⟩
        (some LYCBOR_OBJECT) =
      (LY_SUCCESS, ⟨some schema_ctx, ⟨[0x61, 0x61, 0x01]⟩, [LYCBOR_OBJECT], none, 0, false⟩,
        if (some LYCBOR_OBJECT).isSome then some LYCBOR_OBJECT else some LYCBOR_OBJECT) ∧
    lycbor_ctx_status (lycbor_ctx_next short_routines
        ⟨some schema_ctx, ⟨[0x61, 0x61, 0x01]⟩, [LYCBOR_OBJECT], none, 0, false⟩
        (some LYCBOR_OBJECT)).2.1 = LYCBOR_OBJECT :=
  lycbor_ctx_next_object short_routines
    ⟨some schema_ctx, ⟨[0x61, 0x61, 0x01]⟩, [LYCBOR_OBJECT], none, 0, false⟩
    (some LYCBOR_OBJECT) rfl

/-- C25: when the status stack consists of exactly one terminal-value status,
`lycbor_ctx_next` returns LY_SUCCESS, clears the pending scalar value, leaves
the stack empty and reports End, whatever the missing helpers are. -/
theorem lycbor_ctx_next_last_value (R : lycbor_routines) (cborctx : lycbor_ctx)
    (s : LYCBOR_PARSER_STATUS) (status : Option LYCBOR_PARSER_STATUS)
    (hstack : cborctx.status = [s]) (hs : lycbor_status_terminal s = true) :
    lycbor_ctx_next R cborctx status =
      (LY_SUCCESS, ⟨cborctx.ctx, cborctx.inp, [], none, 0, false⟩,
        if status.isSome then some LYCBOR_END else status) ∧
    lycbor_ctx_status ⟨cborctx.ctx, cborctx.inp, [], none, 0, false⟩ = LYCBOR_END := by
  refine ⟨?_, rfl⟩
  have htop : lycbor_ctx_status cborctx = s := by
    simp [lycbor_ctx_status, hstack]
  have hclose : lycbor_ctx_next_close R cborctx =
      (LY_SUCCESS, ⟨cborctx.ctx, cborctx.inp, [], none, 0, false⟩) := by
    simp [lycbor_ctx_next_close, LYCBOR_STATUS_POP, lycbor_ctx_set_value, hstack,
      lycbor_ctx_status]
  cases s <;> simp only [lycbor_status_terminal, Bool.false_eq_true] at hs <;>
    (simp only [lycbor_ctx_next, htop, hclose, true_and]
     split <;> simp_all [lycbor_ctx_status])

/-- Witness of C25: the stack holding Number with the pending value "42". -/
theorem lycbor_ctx_next_last_value_witness :
    lycbor_ctx_next short_routines
        ⟨some schema_ctx, ⟨[]⟩, [LYCBOR_NUMBER], some "42", 2, true⟩ (some LYCBOR_NUMBER) =
      (LY_SUCCESS, ⟨some schema_ctx, ⟨[]⟩, [], none, 0, false⟩,
        if (some LYCBOR_NUMBER).isSome then some LYCBOR_END else some LYCBOR_NUMBER) ∧
    lycbor_ctx_status ⟨some schema_ctx, ⟨[]⟩, [], none, 0, false⟩ = LYCBOR_END :=
  lycbor_ctx_next_last_value short_routines
    ⟨some schema_ctx, ⟨[]⟩, [LYCBOR_NUMBER], some "42", 2, true⟩ LYCBOR_NUMBER
    (some LYCBOR_NUMBER) rfl rfl

/-- C26 (counterexample): on the stack that holds the one entry End,
`lycbor_ctx_status` returns End although the stack is not empty. -/
theorem lycbor_ctx_status_end_counterexample :
    lycbor_ctx_status ⟨some schema_ctx, ⟨[]⟩, [LYCBOR_END], none, 0, false⟩ = LYCBOR_END ∧
    (⟨some schema_ctx, ⟨[]⟩, [LYCBOR_END], none, 0, false⟩ : lycbor_ctx).status ≠ [] :=
  ⟨rfl, by simp⟩

/-- C26 (amended): `lycbor_ctx_status` returns End on the empty stack and the top
entry, the one pushed last, on every other stack; it returns End exactly when
the stack is empty or its top entry is End, so on a stack without an End
entry exactly when the stack is empty. The function yields the status only:
the stack is as it was. -/
theorem lycbor_ctx_status_top (cborctx : lycbor_ctx) :
    (cborctx.status = [] → lycbor_ctx_status cborctx = LYCBOR_END) ∧
    (∀ below top, cborctx.status = below ++ [top] → lycbor_ctx_status cborctx = top) ∧
    (lycbor_ctx_status cborctx = LYCBOR_END ↔
      cborctx.status = [] ∨ cborctx.status.getLast? = some LYCBOR_END) ∧
    (LYCBOR_END ∉ cborctx.status →
      (lycbor_ctx_status cborctx = LYCBOR_END ↔ cborctx.status = [])) := by
  have h3 : lycbor_ctx_status cborctx = LYCBOR_END ↔
      cborctx.status = [] ∨ cborctx.status.getLast? = some LYCBOR_END := by
    unfold lycbor_ctx_status
    cases hl : cborctx.status.getLast? with
    | none => simp [List.getLast?_eq_none_iff.mp hl]
    | some s =>
      have hne : cborctx.status ≠ [] := by
        intro h
        rw [h] at hl
        simp at hl
      simp [hne]
  refine ⟨fun h => ?_, fun below top h => ?_, h3, fun hmem => ?_⟩
  · simp [lycbor_ctx_status, h]
  · simp [lycbor_ctx_status, h]
  · rw [h3]
    constructor
    · rintro (h | h)
      · exact h
      · exact absurd (List.mem_of_getLast?_eq_some h) hmem
    · exact Or.inl

/-- Witness of C26: the stack Object, ObjectName, which holds no End entry. -/
theorem lycbor_ctx_status_top_witness :
    lycbor_ctx_status
        ⟨some schema_ctx, ⟨[]⟩, [LYCBOR_OBJECT, LYCBOR_OBJECT_NAME], none, 0, false⟩ =
      LYCBOR_OBJECT_NAME ∧
    (lycbor_ctx_status
        ⟨some schema_ctx, ⟨[]⟩, [LYCBOR_OBJECT, LYCBOR_OBJECT_NAME], none, 0, false⟩ =
      LYCBOR_END ↔
      (⟨some schema_ctx, ⟨[]⟩, [LYCBOR_OBJECT, LYCBOR_OBJECT_NAME], none, 0, false⟩ :
        lycbor_ctx).status = []) :=
  ⟨(lycbor_ctx_status_top
      ⟨some schema_ctx, ⟨[]⟩, [LYCBOR_OBJECT, LYCBOR_OBJECT_NAME], none, 0, false⟩).2.1
      [LYCBOR_OBJECT] LYCBOR_OBJECT_NAME rfl,
   (lycbor_ctx_status_top
      ⟨some schema_ctx, ⟨[]⟩, [LYCBOR_OBJECT, LYCBOR_OBJECT_NAME], none, 0, false⟩).2.2.2
      (by decide)⟩

/-- C27: when the pairs before a pair parse successfully, the key of the pair
resolves to a leaf or leaf-list schema node and its value is a map or an
array, `lydcbor_parse_container` returns LY_EVALID and leaves the objects as
the earlier pairs left them: no node is inserted for the pair. -/
theorem parse_container_leaf_container_value (lydctx : lyd_cbor_ctx) (st st1 : pc_state)
    (pre post : List (cbor_item × cbor_item)) (key_item value_item : cbor_item)
    (sn : lysc_node)
    (hpre : lydcbor_parse_container lydctx st (.map pre) = some (LY_SUCCESS, st1))
    (hkey : lydcbor_lookup_key lydctx (st.parent.map lyd_node.schema) key_item
      = .ok (some (some sn)))
    (hkind : sn.nodetype = LYS_LEAF ∨ sn.nodetype = LYS_LEAFLIST)
    (hvalue : cbor_isa_map value_item = true ∨ cbor_isa_array value_item = true) :
    lydcbor_parse_container lydctx st (.map (pre ++ (key_item, value_item) :: post)) =
      some (LY_EVALID, st1) := by
  rw [lydcbor_parse_container] at hpre ⊢
  obtain ⟨hps, s1, hs1, happ⟩ := parse_map_append lydctx _ pre st none st1 rfl
    (snode_fresh_none _ _) hpre
  obtain ⟨key_str, key_len, hk, hf⟩ := lookup_key_ok _ _ _ _ hkey
  have hbits : sn.nodetype &&& (LYS_LEAF ||| LYS_LEAFLIST ||| LYS_ANYDATA ||| LYS_ANYXML) ≠ 0 := by
    rcases hkind with h | h <;> rw [h] <;> decide
  have hval : lydcbor_parse_value lydctx sn value_item = .error LY_EVALID := by
    cases value_item <;>
      simp [cbor_isa_map, cbor_isa_array] at hvalue <;>
      simp only [lydcbor_parse_value, lydcbor_item_to_string]
  rw [happ, lydcbor_parse_map]
  simp only [hk, hps, hs1 key_str, hf, if_pos hbits, hval]

/-- Witness of C27: the pair "tag" : [1, 2] under the node `tags`, `tag` being a
leaf-list, and the pair "name" : (empty map) after the pair "outer" at the
top level, `name` being a leaf. -/
theorem parse_container_leaf_container_value_witness :
    lydcbor_parse_container schema_lydctx_lists ⟨some (.inner schema_tags []), [], []⟩
        (.map ([] ++ (.string "tag", .array [.uint 1, .uint 2]) :: [])) =
      some (LY_EVALID, ⟨some (.inner schema_tags []), [], []⟩) ∧
    lydcbor_parse_container (schema_lydctx 0 LYD_CBOR_NAMED) pc_empty
        (.map ([(.string "outer", .map [])] ++ (.string "name", .map []) ::
          [(.string "name", .string "x")])) =
      some (LY_EVALID, ⟨none, [.inner schema_outer []], [.inner schema_outer []]⟩) :=
  ⟨parse_container_leaf_container_value schema_lydctx_lists
      ⟨some (.inner schema_tags []), [], []⟩ ⟨some (.inner schema_tags []), [], []⟩ [] []
      (.string "tag") (.array [.uint 1, .uint 2]) schema_leaflist_tag rfl rfl (Or.inr rfl)
      (Or.inr rfl),
   parse_container_leaf_container_value (schema_lydctx 0 LYD_CBOR_NAMED) pc_empty
      ⟨none, [.inner schema_outer []], [.inner schema_outer []]⟩
      [(.string "outer", .map [])] [(.string "name", .string "x")]
      (.string "name") (.map []) schema_leaf_name rfl rfl (Or.inl rfl) (Or.inl rfl)⟩

/-- C28 (evaluation of the code): when the key of a pair resolves to a container
or list schema node and the nested call on its map or array value fails, the
call returns that error with the parent and the top-level siblings as they
were (the new Inner node is freed with its children) and with the parsed set
as the nested call left it: the entries that the nested call recorded stay in
the set. -/
theorem parse_container_nested_failure (lydctx : lyd_cbor_ctx) (st sub : pc_state)
    (key_item value_item : cbor_item) (sn : lysc_node) (e : LY_ERR)
    (hkey : lydcbor_lookup_key lydctx (st.parent.map lyd_node.schema) key_item
      = .ok (some (some sn)))
    (hkind : sn.nodetype = LYS_CONTAINER ∨ sn.nodetype = LYS_LIST)
    (hvalue : (cbor_isa_map value_item || cbor_isa_array value_item) = true)
    (hsub : lydcbor_parse_container lydctx ⟨some (.inner sn []), [], st.parsed⟩ value_item
      = some (e, sub))
    (he : e ≠ LY_SUCCESS) :
    lydcbor_parse_container lydctx st (.map [(key_item, value_item)]) =
      some (e, ⟨st.parent, st.first, sub.parsed⟩) := by
  obtain ⟨key_str, key_len, hk, hf⟩ := lookup_key_ok _ _ _ _ hkey
  obtain ⟨hb1, hb2⟩ := inner_nodetype_bits sn hkind
  rw [lydcbor_parse_container, lydcbor_parse_map]
  simp only [hk, hf, if_neg hb1, if_pos hb2, lyd_create_inner, hvalue, if_true,
    lyd_node_child, hsub, if_pos he]

/-- Witness of C28: the document with the pair "outer" : ("inner" : 7,
"inner" : (empty map)): the nested call records the leaf `inner` and fails on
the second pair; the call returns with no node in the output and the leaf in
the parsed set. -/
theorem parse_container_nested_failure_witness :
    lydcbor_parse_container (schema_lydctx 0 LYD_CBOR_NAMED) pc_empty
        (.map [(.string "outer", .map [(.string "inner", .uint 7),
          (.string "inner", .map [])])]) =
      some (LY_EVALID, ⟨none, [], [.term schema_leaf_inner "7"]⟩) ∧
    lyd_forest_nodes ([] : List lyd_node) = [] ∧
    [lyd_node.term schema_leaf_inner "7"] ≠ [] :=
  ⟨parse_container_nested_failure (schema_lydctx 0 LYD_CBOR_NAMED) pc_empty
      ⟨some (.inner schema_outer [.term schema_leaf_inner "7"]), [],
        [.term schema_leaf_inner "7"]⟩
      (.string "outer") (.map [(.string "inner", .uint 7), (.string "inner", .map [])])
      schema_outer LY_EVALID rfl (Or.inl rfl) rfl rfl (by decide),
   rfl, by simp⟩

/-- C29: in a state whose stack holds Object and Array entries below what the
closing step of `lycbor_ctx_next` pops (the terminal value on top, or the
ObjectClosed or ArrayClosed marker on top with the entry beneath it), the
context `c` that the step has after it has cleared the pending value and
popped has the status Object, Array or End. With Object or Array the call
returns what the item reader of that kind returns for `c`; otherwise the
status is End, the stack is empty and the call returns LY_SUCCESS with `c`, so
that `assert (cur == LYCBOR_END)` holds where it is evaluated. -/
theorem lycbor_ctx_next_close_assert (R : lycbor_routines) (cborctx c : lycbor_ctx)
    (rest : List LYCBOR_PARSER_STATUS) (mid top : LYCBOR_PARSER_STATUS)
    (status : Option LYCBOR_PARSER_STATUS)
    (hrest : ∀ s ∈ rest, s = LYCBOR_OBJECT ∨ s = LYCBOR_ARRAY)
    (hstack : (lycbor_status_terminal top = true ∧ cborctx.status = rest ++ [top]) ∨
      ((top = LYCBOR_OBJECT_CLOSED ∨ top = LYCBOR_ARRAY_CLOSED) ∧
        cborctx.status = rest ++ [mid, top]))
    (hc : c = ⟨cborctx.ctx, cborctx.inp, rest, none, 0, false⟩) :
    (lycbor_ctx_status c = LYCBOR_OBJECT ∧
      (lycbor_ctx_next R cborctx status).1 = (R.lycbor_next_object_item c).1 ∧
      (lycbor_ctx_next R cborctx status).2.1 = (R.lycbor_next_object_item c).2) ∨
    (lycbor_ctx_status c = LYCBOR_ARRAY ∧
      (lycbor_ctx_next R cborctx status).1 = (R.lycbor_next_array_item c).1 ∧
      (lycbor_ctx_next R cborctx status).2.1 = (R.lycbor_next_array_item c).2) ∨
    (lycbor_ctx_status c = LYCBOR_END ∧ rest = [] ∧
      lycbor_ctx_next R cborctx status =
        (LY_SUCCESS, c, if status.isSome then some LYCBOR_END else status)) := by
  have hcs : c.status = rest := by rw [hc]
  have hnext : ∀ r : LY_ERR × lycbor_ctx,
      (match lycbor_ctx_status c with
        | LYCBOR_OBJECT => R.lycbor_next_object_item c
        | LYCBOR_ARRAY => R.lycbor_next_array_item c
        | _ => (LY_SUCCESS, c)) = r →
      lycbor_ctx_next R cborctx status =
        if r.1 = LY_SUCCESS ∧ status.isSome then (r.1, r.2, some (lycbor_ctx_status r.2))
        else (r.1, r.2, status) := by
    intro r hr
    rcases hstack with ⟨hterm, hst⟩ | ⟨hclosed, hst⟩
    · have htop : lycbor_ctx_status cborctx = top := by
        simp [lycbor_ctx_status, hst]
      have hclose : lycbor_ctx_next_close R cborctx = r := by
        rw [← hr, hc]
        simp [lycbor_ctx_next_close, LYCBOR_STATUS_POP, lycbor_ctx_set_value, hst]
      cases top <;> simp only [lycbor_status_terminal, Bool.false_eq_true] at hterm <;>
        simp only [lycbor_ctx_next, htop, hclose]
    · have htop : lycbor_ctx_status cborctx = top := by
        simp [lycbor_ctx_status, hst]
      have hclose : lycbor_ctx_next_close R (LYCBOR_STATUS_POP cborctx) = r := by
        rw [← hr, hc]
        simp [lycbor_ctx_next_close, LYCBOR_STATUS_POP, lycbor_ctx_set_value, hst,
          List.dropLast]
      rcases hclosed with h | h <;> subst h <;>
        simp only [lycbor_ctx_next, htop, hclose]
  rcases status_of_container_stack c (by rw [hcs]; exact hrest) with h | h | h
  · refine Or.inl ⟨h, ?_, ?_⟩ <;>
      (rw [hnext (R.lycbor_next_object_item c) (by rw [h])]; split <;> rfl)
  · refine Or.inr (Or.inl ⟨h, ?_, ?_⟩) <;>
      (rw [hnext (R.lycbor_next_array_item c) (by rw [h])]; split <;> rfl)
  · have hnil : rest = [] := by
      cases hl : rest.getLast? with
      | none => exact List.getLast?_eq_none_iff.mp hl
      | some s =>
        have hs : lycbor_ctx_status c = s := by
          simp [lycbor_ctx_status, hcs, hl]
        rcases hrest s (List.mem_of_getLast?_eq_some hl) with h1 | h1 <;>
          (rw [hs, h1] at h; cases h)
    refine Or.inr (Or.inr ⟨h, hnil, ?_⟩)
    rw [hnext (LY_SUCCESS, c) (by rw [h])]
    cases status <;> simp [h]

/-- Witness of C29: the stack Object, Array, Number with the pending value "42"
(the step pops Number, reads Array and calls the array item reader) and the
stack Array, Object, ObjectClosed (the step pops the marker and its Object,
reads Array). -/
theorem lycbor_ctx_next_close_assert_witness :
    lycbor_ctx_next short_routines
        ⟨some schema_ctx, ⟨[]⟩, [LYCBOR_OBJECT, LYCBOR_ARRAY, LYCBOR_NUMBER], some "42", 2, true⟩
        none =
      (LY_SUCCESS, ⟨some schema_ctx, ⟨[]⟩, [LYCBOR_OBJECT, LYCBOR_ARRAY, LYCBOR_ARRAY_NEXT],
        none, 0, false⟩, none) ∧
    lycbor_ctx_next short_routines
        ⟨some schema_ctx, ⟨[]⟩, [LYCBOR_ARRAY, LYCBOR_OBJECT, LYCBOR_OBJECT_CLOSED], none, 0,
          false⟩ none =
      (LY_SUCCESS, ⟨some schema_ctx, ⟨[]⟩, [LYCBOR_ARRAY, LYCBOR_ARRAY_NEXT], none, 0, false⟩,
        none) ∧
    (lycbor_ctx_status ⟨some schema_ctx, ⟨[]⟩, [LYCBOR_OBJECT, LYCBOR_ARRAY], none, 0, false⟩ =
        LYCBOR_ARRAY ∧
      (lycbor_ctx_next short_routines
          ⟨some schema_ctx, ⟨[]⟩, [LYCBOR_OBJECT, LYCBOR_ARRAY, LYCBOR_NUMBER], some "42", 2,
            true⟩ none).1 =
        (short_routines.lycbor_next_array_item
          ⟨some schema_ctx, ⟨[]⟩, [LYCBOR_OBJECT, LYCBOR_ARRAY], none, 0, false⟩).1 ∧
      (lycbor_ctx_next short_routines
          ⟨some schema_ctx, ⟨[]⟩, [LYCBOR_OBJECT, LYCBOR_ARRAY, LYCBOR_NUMBER], some "42", 2,
            true⟩ none).2.1 =
        (short_routines.lycbor_next_array_item
          ⟨some schema_ctx, ⟨[]⟩, [LYCBOR_OBJECT, LYCBOR_ARRAY], none, 0, false⟩).2) ∧
    (lycbor_ctx_status ⟨some schema_ctx, ⟨[]⟩, [LYCBOR_ARRAY], none, 0, false⟩ = LYCBOR_ARRAY ∧
      (lycbor_ctx_next short_routines
          ⟨some schema_ctx, ⟨[]⟩, [LYCBOR_ARRAY, LYCBOR_OBJECT, LYCBOR_OBJECT_CLOSED], none, 0,
            false⟩ none).1 =
        (short_routines.lycbor_next_array_item
          ⟨some schema_ctx, ⟨[]⟩, [LYCBOR_ARRAY], none, 0, false⟩).1 ∧
      (lycbor_ctx_next short_routines
          ⟨some schema_ctx, ⟨[]⟩, [LYCBOR_ARRAY, LYCBOR_OBJECT, LYCBOR_OBJECT_CLOSED], none, 0,
            false⟩ none).2.1 =
        (short_routines.lycbor_next_array_item
          ⟨some schema_ctx, ⟨[]⟩, [LYCBOR_ARRAY], none, 0, false⟩).2) :=
  ⟨rfl, rfl,
   (lycbor_ctx_next_close_assert short_routines
      ⟨some schema_ctx, ⟨[]⟩, [LYCBOR_OBJECT, LYCBOR_ARRAY, LYCBOR_NUMBER], some "42", 2, true⟩
      ⟨some schema_ctx, ⟨[]⟩, [LYCBOR_OBJECT, LYCBOR_ARRAY], none, 0, false⟩
      [LYCBOR_OBJECT, LYCBOR_ARRAY] LYCBOR_NUMBER LYCBOR_NUMBER none
      (by intro s hs; simp at hs; rcases hs with h | h <;> simp [h])
      (Or.inl ⟨rfl, rfl⟩) rfl).elim
    (fun h => absurd h.1 (by decide))
    (fun h => h.elim id (fun h => absurd h.1 (by decide))),
   (lycbor_ctx_next_close_assert short_routines
      ⟨some schema_ctx, ⟨[]⟩, [LYCBOR_ARRAY, LYCBOR_OBJECT, LYCBOR_OBJECT_CLOSED], none, 0,
        false⟩
      ⟨some schema_ctx, ⟨[]⟩, [LYCBOR_ARRAY], none, 0, false⟩
      [LYCBOR_ARRAY] LYCBOR_OBJECT LYCBOR_OBJECT_CLOSED none
      (by intro s hs; simp at hs; simp [hs])
      (Or.inr ⟨Or.inl rfl, rfl⟩) rfl).elim
    (fun h => absurd h.1 (by decide))
    (fun h => h.elim id (fun h => absurd h.1 (by decide)))⟩

end LibyangCbor
